import Mathlib

/-!
# Server-Client file transfer: framing protocol, checksum and worker pool

A shallow embedding of `sender.cpp` (the hub) and `listener.cpp` (the peer).

* Bytes are `UInt8`; a `char` buffer is a `List Byte` holding the unsigned
  value of each `char`, so `b & 0xFF` and `(unsigned char) b` are `b.toNat`.
* `int` and `long long` values are `Int`s; conversions that can wrap go
  through `toInt32` / `toInt64`, and bitwise expressions are evaluated on the
  two's-complement bit pattern (a `Nat`) and read back with those functions.
* `uint32_t` values are `Nat`s below `2^32`.
* A socket is explicit state: the data the peer delivers, the results the
  network gives to successive `send` calls, and the bytes put on the wire.
-/

set_option autoImplicit false

/-! ## Machine integers and bytes -/

/-- One `char` of a buffer, by its unsigned value. -/
abbrev Byte := UInt8

/-- The bytes of an ASCII string literal. -/
def bytesOf (s : String) : List Byte := s.toList.map (fun c => UInt8.ofNat c.toNat)

/-- The macro `CHUNK_SIZE`, 65536 in both files. -/
def CHUNK_SIZE : Int := 65536

/-- The winsock constant `SOCKET_ERROR`. -/
def SOCKET_ERROR : Int := -1

/-- The `int` whose 32-bit two's-complement pattern is `n mod 2^32`
(`static_cast<int>`, and the result of an `int` expression that wraps). -/
def toInt32 (n : Int) : Int := (n + 2147483648) % 4294967296 - 2147483648

/-- The `long long` whose 64-bit two's-complement pattern is `n mod 2^64`. -/
def toInt64 (n : Int) : Int :=
  (n + 9223372036854775808) % 18446744073709551616 - 9223372036854775808

/-- The `char` stored by `buf[i] = (x >> (i * 8)) & 0xFF` for a signed `x`:
an arithmetic right shift is the floor division by `2^(8 i)` and the mask keeps
the residue modulo 256. -/
def byteAt (x : Int) (i : Nat) : Byte := UInt8.ofNat ((x / 2 ^ (8 * i)) % 256).toNat

/-! ## Integrity check (sender.cpp, lines 105-145) -/

/-- One round of the table construction:
`c = (c & 1) ? 0xEDB88320u ^ (c >> 1) : (c >> 1)`. -/
def crcTableStep (c : Nat) : Nat :=
  if c &&& 1 ≠ 0 then 0xEDB88320 ^^^ (c >>> 1) else c >>> 1

/-- The entry `crc_table[i]`: eight rounds (`for (int j = 0; j < 8; ++j)`)
starting from `c = i`. -/
def crc_table (i : Nat) : Nat := Nat.iterate crcTableStep 8 i

/-- The loop body of `crc32_update`:
`c = crc_table[(c ^ (unsigned char)buf[k]) & 0xFFu] ^ (c >> 8)`. -/
def crcByte (c : Nat) (b : Byte) : Nat :=
  crc_table ((c ^^^ b.toNat) &&& 0xFF) ^^^ (c >>> 8)

/-- The lambda `crc32_update(crc, buf, len)` with `buf` holding `len` bytes. -/
def crc32_update (crc : Nat) (buf : List Byte) : Nat :=
  (buf.foldl crcByte (crc ^^^ 0xFFFFFFFF)) ^^^ 0xFFFFFFFF

/-- The standard CRC-32 as the spec describes it, bit by bit: reflected,
polynomial `0xEDB88320`, initial value `0xFFFFFFFF`, final XOR `0xFFFFFFFF`. -/
def crc32Reference (p : List Byte) : Nat :=
  (p.foldl (fun c b => Nat.iterate crcTableStep 8 (c ^^^ b.toNat)) 0xFFFFFFFF) ^^^ 0xFFFFFFFF

/-! ## Files -/

/-- An input file stream: the file's bytes and the read position. -/
structure IFStream where
  content : List Byte
  pos : Nat
deriving DecidableEq, Repr

/-- The call `infile.seekg(0, std::ios::beg)` (after `clear()`). -/
def IFStream.rewind (f : IFStream) : IFStream := { f with pos := 0 }

/-- The call `infile.read(buf, n)`: the bytes read (`gcount()` is their number) and the
stream after the read. -/
def IFStream.read (f : IFStream) (n : Int) : List Byte × IFStream :=
  let got := (f.content.drop f.pos).take n.toNat
  (got, { f with pos := f.pos + got.length })

/-- The CRC scan loop of `sendFile` (lines 135-144), `fuel` bounding the number
of iterations. -/
def crcScanLoop : Nat → IFStream → Int → Int → Nat → Nat
  | 0, _, _, _, runningCrc => runningCrc
  | fuel + 1, infile, fileSize, scanned, runningCrc =>
    if scanned < fileSize then
      let toRead : Int :=
        if fileSize - scanned > CHUNK_SIZE then CHUNK_SIZE else toInt32 (fileSize - scanned)
      let (crcChunk, infile') := infile.read toRead
      let r : Int := crcChunk.length
      if r ≤ 0 then runningCrc
      else crcScanLoop fuel infile' fileSize (scanned + r) (crc32_update runningCrc crcChunk)
    else runningCrc

/-- The value `fileCrc` that `sendFile` emits for a file holding `p`:
`runningCrc` starts at `0xFFFFFFFFu` and is folded through the scan loop.
Every iteration advances by at least one byte, so `fileSize` iterations are
enough. -/
def fileCrc (p : List Byte) : Nat :=
  let fileSize := toInt64 p.length
  crcScanLoop fileSize.toNat ⟨p, 0⟩ fileSize 0 0xFFFFFFFF

/-! ## Sockets -/

/-- What the network does with one call to `send`: it fails, or it takes at
most `n` of the bytes offered. -/
inductive SendOutcome where
  | error
  | accept (n : Nat)
deriving DecidableEq, Repr

/-- A connected stream socket as one endpoint sees it.
`inbox` is the data still to be delivered by `recv`, in arrival order, as the
pieces in which it arrives; when it is empty the peer has closed.
`sendScript` gives the outcome of each coming `send`; after its end the
connection is broken. `wire` is every byte `send` has accepted so far. -/
structure Socket where
  inbox : List (List Byte)
  sendScript : List SendOutcome
  wire : List Byte
deriving DecidableEq, Repr

/-- The call `recv(sock, buf, len, 0)`: the return value, the bytes stored in `buf`,
and the socket afterwards. It hands out at most `len` bytes of the piece at
the head of the inbox and returns 0 once the peer has closed. -/
def recv (sock : Socket) (len : Int) : Int × List Byte × Socket :=
  match sock.inbox with
  | [] => (0, [], sock)
  | seg :: rest =>
    if (seg.length : Int) ≤ len then (seg.length, seg, { sock with inbox := rest })
    else (len, seg.take len.toNat, { sock with inbox := seg.drop len.toNat :: rest })

/-- The call `send(sock, buf, len, 0)`: the return value and the socket afterwards. -/
def send (sock : Socket) (buf : List Byte) (len : Int) : Int × Socket :=
  match sock.sendScript with
  | [] => (SOCKET_ERROR, sock)
  | SendOutcome.error :: rest => (SOCKET_ERROR, { sock with sendScript := rest })
  | SendOutcome.accept n :: rest =>
    let k := min n len.toNat
    ((k : Int), { sock with sendScript := rest, wire := sock.wire ++ buf.take k })

/-- The bytes the peer has sent and `recv` has not yet handed out. -/
def Socket.pending (sock : Socket) : List Byte := sock.inbox.flatten

/-- Every piece still to arrive holds at least one byte: `recv` returns 0
only when the peer has closed. -/
def Socket.Live (sock : Socket) : Prop := ∀ seg ∈ sock.inbox, seg ≠ []

instance (sock : Socket) : Decidable sock.Live := by
  unfold Socket.Live; infer_instance

/-! ## Output naming (both files) -/

/-- The method `std::string::c_str()` as a file name: `std::ofstream` opens the
bytes before the first NUL of the string it is given. -/
def c_str (s : List Byte) : List Byte := s.takeWhile (fun b => b ≠ 0)

/-- The method `std::string::find_last_of(c)`: the index of the last occurrence of `c`,
`none` for `npos`. -/
def find_last_of : List Byte → Byte → Option Nat
  | [], _ => none
  | b :: rest, c =>
    match find_last_of rest c with
    | some i => some (i + 1)
    | none => if b = c then some 0 else none

/-- How a call to `receiveFile` ends: it returns `true`, returns `false`, or
leaves by a C++ exception. -/
inductive Outcome where
  | success
  | failure
  | exception
deriving DecidableEq, Repr

/-- The observable effects of one call to `receiveFile`: how it ended, the
socket afterwards, the name and size it announced on standard output
(`Receiving file: <filename> (<fileSize> bytes)`), and the output file it
created, as the name the file system was given and the content. -/
structure Received where
  outcome : Outcome
  sock : Socket
  announced : Option (List Byte × Int)
  outfile : Option (List Byte × List Byte)
deriving DecidableEq, Repr

/-! ## sender.cpp: the hub -/

namespace Sender

/-- The loop of `sendAllBytes` (lines 29-45), entered with the current `total`. -/
def sendAllBytesLoop : Nat → Socket → List Byte → Int → Int → Bool × Socket
  | 0, sock, _, len, total => (decide (¬ total < len), sock)
  | fuel + 1, sock, buf, len, total =>
    if total < len then
      let (sent, sock') := send sock (buf.drop total.toNat) (len - total)
      if sent = SOCKET_ERROR then (false, sock')
      else if sent = 0 then (false, sock')
      else sendAllBytesLoop fuel sock' buf len (total + sent)
    else (true, sock)

/-- The function `bool sendAllBytes(SOCKET sock, const char *buf, int len)`. Each iteration
uses up one entry of the send script, which bounds the loop. -/
def sendAllBytes (sock : Socket) (buf : List Byte) (len : Int) : Bool × Socket :=
  sendAllBytesLoop (sock.sendScript.length + 1) sock buf len 0

/-- The loop of `recvExactBytes` (lines 53-62); `buf` is what has been stored
so far. -/
def recvExactBytesLoop : Nat → Socket → Int → Int → List Byte → Option (List Byte) × Socket
  | 0, sock, len, total, buf => (if total < len then none else some buf, sock)
  | fuel + 1, sock, len, total, buf =>
    if total < len then
      let (recvd, data, sock') := recv sock (len - total)
      if recvd ≤ 0 then (none, sock')
      else recvExactBytesLoop fuel sock' len (total + recvd) (buf ++ data)
    else (some buf, sock)

/-- The function `bool recvExactBytes(SOCKET sock, char *buf, int len)`: `some buf` for
`true` with the filled buffer, `none` for `false`. Each iteration stores at
least one byte, so `len` iterations are enough. -/
def recvExactBytes (sock : Socket) (len : Int) : Option (List Byte) × Socket :=
  recvExactBytesLoop len.toNat sock len 0 []

/-- The payload loop of `sendFile` (lines 163-170). -/
def sendPayloadLoop : Nat → Socket → IFStream → Int → Int → Bool × Socket
  | 0, sock, _, fileSize, sent => (decide (¬ sent < fileSize), sock)
  | fuel + 1, sock, infile, fileSize, sent =>
    if sent < fileSize then
      let toRead : Int :=
        if fileSize - sent > CHUNK_SIZE then CHUNK_SIZE else toInt32 (fileSize - sent)
      let (chunk, infile') := infile.read toRead
      match sendAllBytes sock chunk toRead with
      | (false, sock') => (false, sock')
      | (true, sock') => sendPayloadLoop fuel sock' infile' fileSize (sent + toRead)
    else (true, sock)

/-- The function `bool sendFile(SOCKET sock, const std::string &filename, const std::string
&filepath)` of sender.cpp; `file` is what `filepath` holds, `none` when it
cannot be opened. -/
def sendFile (sock : Socket) (filename : List Byte) (file : Option (List Byte)) :
    Bool × Socket :=
  match file with
  | none => (false, sock)
  | some content =>
    let infile : IFStream := ⟨content, 0⟩
    let fileSize : Int := toInt64 content.length
    let fnLen : Int := toInt32 filename.length
    let lenBuf := [byteAt fnLen 0, byteAt fnLen 1, byteAt fnLen 2, byteAt fnLen 3]
    match sendAllBytes sock lenBuf 4 with
    | (false, s1) => (false, s1)
    | (true, s1) =>
    match sendAllBytes s1 filename fnLen with
    | (false, s2) => (false, s2)
    | (true, s2) =>
    let sizeBuf := (List.range 8).map (byteAt fileSize)
    match sendAllBytes s2 sizeBuf 8 with
    | (false, s3) => (false, s3)
    | (true, s3) =>
    let crc : Nat := crcScanLoop fileSize.toNat infile.rewind fileSize 0 0xFFFFFFFF
    let crcBuf := [byteAt crc 0, byteAt crc 1, byteAt crc 2, byteAt crc 3]
    match sendAllBytes s3 crcBuf 4 with
    | (false, s4) => (false, s4)
    | (true, s4) => sendPayloadLoop fileSize.toNat s4 infile.rewind fileSize 0

/-- The destination name of `receiveFile` (lines 203-209). -/
def outFilename (filename : List Byte) : List Byte :=
  match find_last_of filename (UInt8.ofNat 46) with
  | none => filename ++ bytesOf "_copy"
  | some dot => filename.take dot ++ bytesOf "_copy" ++ filename.drop dot

/-- The `int fnLen` decoded at lines 185-186. -/
def decodeFnLen (lenBuf : List Byte) : Int :=
  let b (i : Nat) : Nat := (lenBuf.getD i 0).toNat
  toInt32 (((b 0 &&& 0xFF) ||| ((b 1 &&& 0xFF) <<< 8) |||
    ((b 2 &&& 0xFF) <<< 16) ||| ((b 3 &&& 0xFF) <<< 24) : Nat) : Int)

/-- The `long long fileSize` decoded at lines 197-199. -/
def decodeFileSize (sizeBuf : List Byte) : Int :=
  toInt64 (((List.range 8).foldl
    (fun acc i => acc ||| (((sizeBuf.getD i 0).toNat &&& 0xFF) <<< (i * 8))) 0 : Nat) : Int)

/-- The payload loop of `receiveFile` (lines 221-231); `out` is what has been
written to the output file so far. -/
def recvPayloadLoop : Nat → Socket → Int → Int → List Byte → Bool × Socket × List Byte
  | 0, sock, fileSize, recvd, out => (decide (¬ recvd < fileSize), sock, out)
  | fuel + 1, sock, fileSize, recvd, out =>
    if recvd < fileSize then
      let toRecv : Int :=
        if fileSize - recvd > CHUNK_SIZE then CHUNK_SIZE else toInt32 (fileSize - recvd)
      match recvExactBytes sock toRecv with
      | (none, sock') => (false, sock', out)
      | (some chunk, sock') =>
        recvPayloadLoop fuel sock' fileSize (recvd + toRecv) (out ++ chunk)
    else (true, sock, out)

/-- The function `bool receiveFile(SOCKET sock)` of sender.cpp. `canCreate name` tells
whether the file system lets `name` be created. A negative `fnLen` makes the
constructor `std::string filename(fnLen, 0)` throw `std::length_error`. The
file opened by `std::ofstream outfile(outFilename, ...)` is the one named
`outFilename.c_str()`. -/
def receiveFile (canCreate : List Byte → Bool) (sock : Socket) : Received :=
  match recvExactBytes sock 4 with
  | (none, s1) => ⟨Outcome.failure, s1, none, none⟩
  | (some lenBuf, s1) =>
    let fnLen := decodeFnLen lenBuf
    if fnLen < 0 then ⟨Outcome.exception, s1, none, none⟩ else
    match recvExactBytes s1 fnLen with
    | (none, s2) => ⟨Outcome.failure, s2, none, none⟩
    | (some filename, s2) =>
    match recvExactBytes s2 8 with
    | (none, s3) => ⟨Outcome.failure, s3, none, none⟩
    | (some sizeBuf, s3) =>
    let fileSize := decodeFileSize sizeBuf
    let outName := outFilename filename
    let path := c_str outName
    if canCreate path then
      match recvPayloadLoop (fileSize / CHUNK_SIZE + 1).toNat s3 fileSize 0 [] with
      | (true, s4, out) => ⟨Outcome.success, s4, some (filename, fileSize), some (path, out)⟩
      | (false, s4, out) => ⟨Outcome.failure, s4, some (filename, fileSize), some (path, out)⟩
    else ⟨Outcome.failure, s3, some (filename, fileSize), none⟩

end Sender

/-! ## listener.cpp: the peer -/

namespace Listener

/-- The loop of `sendAllBytes` (lines 20-29): only `SOCKET_ERROR` ends it
early. -/
def sendAllBytesLoop : Nat → Socket → List Byte → Int → Int → Bool × Socket
  | 0, sock, _, len, total => (decide (¬ total < len), sock)
  | fuel + 1, sock, buf, len, total =>
    if total < len then
      let (sent, sock') := send sock (buf.drop total.toNat) (len - total)
      if sent = SOCKET_ERROR then (false, sock')
      else sendAllBytesLoop fuel sock' buf len (total + sent)
    else (true, sock)

/-- The function `bool sendAllBytes(SOCKET sock, const char *buf, int len)`. -/
def sendAllBytes (sock : Socket) (buf : List Byte) (len : Int) : Bool × Socket :=
  sendAllBytesLoop (sock.sendScript.length + 1) sock buf len 0

/-- The loop of `recvExactBytes` (lines 37-46). -/
def recvExactBytesLoop : Nat → Socket → Int → Int → List Byte → Option (List Byte) × Socket
  | 0, sock, len, total, buf => (if total < len then none else some buf, sock)
  | fuel + 1, sock, len, total, buf =>
    if total < len then
      let (recvd, data, sock') := recv sock (len - total)
      if recvd ≤ 0 then (none, sock')
      else recvExactBytesLoop fuel sock' len (total + recvd) (buf ++ data)
    else (some buf, sock)

/-- The function `bool recvExactBytes(SOCKET sock, char *buf, int len)`. -/
def recvExactBytes (sock : Socket) (len : Int) : Option (List Byte) × Socket :=
  recvExactBytesLoop len.toNat sock len 0 []

/-- The payload loop of `sendFile` (lines 92-99). -/
def sendPayloadLoop : Nat → Socket → IFStream → Int → Int → Bool × Socket
  | 0, sock, _, fileSize, sent => (decide (¬ sent < fileSize), sock)
  | fuel + 1, sock, infile, fileSize, sent =>
    if sent < fileSize then
      let toRead : Int :=
        if fileSize - sent > CHUNK_SIZE then CHUNK_SIZE else toInt32 (fileSize - sent)
      let (chunk, infile') := infile.read toRead
      match sendAllBytes sock chunk toRead with
      | (false, sock') => (false, sock')
      | (true, sock') => sendPayloadLoop fuel sock' infile' fileSize (sent + toRead)
    else (true, sock)

/-- The function `bool sendFile(SOCKET sock, const std::string &filename, const std::string
&filepath)` of listener.cpp: no checksum field. -/
def sendFile (sock : Socket) (filename : List Byte) (file : Option (List Byte)) :
    Bool × Socket :=
  match file with
  | none => (false, sock)
  | some content =>
    let infile : IFStream := ⟨content, 0⟩
    let fileSize : Int := toInt64 content.length
    let fnLen : Int := toInt32 filename.length
    let lenBuf := [byteAt fnLen 0, byteAt fnLen 1, byteAt fnLen 2, byteAt fnLen 3]
    match sendAllBytes sock lenBuf 4 with
    | (false, s1) => (false, s1)
    | (true, s1) =>
    match sendAllBytes s1 filename fnLen with
    | (false, s2) => (false, s2)
    | (true, s2) =>
    let sizeBuf := (List.range 8).map (byteAt fileSize)
    match sendAllBytes s2 sizeBuf 8 with
    | (false, s3) => (false, s3)
    | (true, s3) => sendPayloadLoop fileSize.toNat s3 infile fileSize 0

/-- The destination name of `receiveFile` (lines 132-138). -/
def outFilename (filename : List Byte) : List Byte :=
  match find_last_of filename (UInt8.ofNat 46) with
  | none => filename ++ bytesOf "_copy"
  | some dot => filename.take dot ++ bytesOf "_copy" ++ filename.drop dot

/-- The `int fnLen` decoded at lines 114-115. -/
def decodeFnLen (lenBuf : List Byte) : Int :=
  let b (i : Nat) : Nat := (lenBuf.getD i 0).toNat
  toInt32 (((b 0 &&& 0xFF) ||| ((b 1 &&& 0xFF) <<< 8) |||
    ((b 2 &&& 0xFF) <<< 16) ||| ((b 3 &&& 0xFF) <<< 24) : Nat) : Int)

/-- The `long long fileSize` decoded at lines 126-128. -/
def decodeFileSize (sizeBuf : List Byte) : Int :=
  toInt64 (((List.range 8).foldl
    (fun acc i => acc ||| (((sizeBuf.getD i 0).toNat &&& 0xFF) <<< (i * 8))) 0 : Nat) : Int)

/-- The payload loop of `receiveFile` (lines 150-160). -/
def recvPayloadLoop : Nat → Socket → Int → Int → List Byte → Bool × Socket × List Byte
  | 0, sock, fileSize, recvd, out => (decide (¬ recvd < fileSize), sock, out)
  | fuel + 1, sock, fileSize, recvd, out =>
    if recvd < fileSize then
      let toRecv : Int :=
        if fileSize - recvd > CHUNK_SIZE then CHUNK_SIZE else toInt32 (fileSize - recvd)
      match recvExactBytes sock toRecv with
      | (none, sock') => (false, sock', out)
      | (some chunk, sock') =>
        recvPayloadLoop fuel sock' fileSize (recvd + toRecv) (out ++ chunk)
    else (true, sock, out)

/-- The function `bool receiveFile(SOCKET sock)` of listener.cpp. -/
def receiveFile (canCreate : List Byte → Bool) (sock : Socket) : Received :=
  match recvExactBytes sock 4 with
  | (none, s1) => ⟨Outcome.failure, s1, none, none⟩
  | (some lenBuf, s1) =>
    let fnLen := decodeFnLen lenBuf
    if fnLen < 0 then ⟨Outcome.exception, s1, none, none⟩ else
    match recvExactBytes s1 fnLen with
    | (none, s2) => ⟨Outcome.failure, s2, none, none⟩
    | (some filename, s2) =>
    match recvExactBytes s2 8 with
    | (none, s3) => ⟨Outcome.failure, s3, none, none⟩
    | (some sizeBuf, s3) =>
    let fileSize := decodeFileSize sizeBuf
    let outName := outFilename filename
    let path := c_str outName
    if canCreate path then
      match recvPayloadLoop (fileSize / CHUNK_SIZE + 1).toNat s3 fileSize 0 [] with
      | (true, s4, out) => ⟨Outcome.success, s4, some (filename, fileSize), some (path, out)⟩
      | (false, s4, out) => ⟨Outcome.failure, s4, some (filename, fileSize), some (path, out)⟩
    else ⟨Outcome.failure, s3, some (filename, fileSize), none⟩

end Listener

/-! ## Little-endian integers, as the wire format describes them -/

/-- The unsigned value of a byte string read as a little-endian integer. -/
def littleEndianValue : List Byte → Nat
  | [] => 0
  | b :: rest => b.toNat + 256 * littleEndianValue rest

/-- The `width` low-order bytes of `n`, least significant first. -/
def littleEndian : Nat → Nat → List Byte
  | 0, _ => []
  | width + 1, n => UInt8.ofNat (n % 256) :: littleEndian width (n / 256)

/-- No coming `send` fails: the network takes at least one byte at every call
the script provides for. -/
def Socket.Willing (sock : Socket) : Prop :=
  ∀ o ∈ sock.sendScript, ∃ n, o = SendOutcome.accept (n + 1)

namespace Sender

/-- The payload phase seen as a sequence of buffers: each one is handed to
`sendAllBytes` whole, and the first failure ends the transfer. -/
def sendChunks : Socket → List (List Byte) → Bool × Socket
  | sock, [] => (true, sock)
  | sock, chunk :: rest =>
    match sendAllBytes sock chunk chunk.length with
    | (false, sock') => (false, sock')
    | (true, sock') => sendChunks sock' rest

end Sender

/-! ## The worker pool of sender.cpp (lines 238-283)

The queue and the flag are only touched inside the regions guarded by
`queueMutex`, and `activeThreads` is atomic, so a run of the pool is an
interleaving of the atomic steps below. Tasks are told apart by the order in
which they were submitted: the `k`-th call of `submitTask` submits task `k`. -/

namespace Sender

/-- Where one `threadPoolWorker` thread stands: at the head of its loop
(possibly blocked in `queueCV.wait`), holding a dequeued task it has not run
yet, back from `task()` and about to decrement `activeThreads`, or out of its
loop. -/
inductive WorkerState where
  | idle
  | holding (task : Nat)
  | ran
  | exited
deriving DecidableEq, Repr

/-- The shared state of the pool and its workers. `submitted`, `dequeued` and
`executed` record the history: how many tasks were submitted, and which worker
dequeued and which worker ran which task, in order. -/
structure Pool where
  taskQueue : List Nat
  activeThreads : Int
  shouldShutdown : Bool
  workers : List WorkerState
  submitted : Nat
  dequeued : List (Nat × Nat)
  executed : List (Nat × Nat)
deriving DecidableEq, Repr

/-- The pool when `main` has started its 4 workers (line 388). -/
def Pool.init : Pool :=
  { taskQueue := [], activeThreads := 0, shouldShutdown := false,
    workers := List.replicate 4 WorkerState.idle, submitted := 0, dequeued := [],
    executed := [] }

/-- The guarded region of `submitTask` (lines 277-281): push the task and
count it. -/
def submitTask (s : Pool) : Pool :=
  { s with taskQueue := s.taskQueue ++ [s.submitted],
           activeThreads := s.activeThreads + 1,
           submitted := s.submitted + 1 }

/-- The guarded region of worker `i` (lines 251-264). The worker gets past
`queueCV.wait` only when the queue is not empty or shutdown is requested; it
leaves the loop when shutdown is requested and the queue is empty, and
otherwise takes the task at the front. -/
def workerLocked (s : Pool) (i : Nat) : Option Pool :=
  if s.workers[i]? = some WorkerState.idle ∧ (s.taskQueue ≠ [] ∨ s.shouldShutdown = true) then
    if s.shouldShutdown = true ∧ s.taskQueue = [] then
      some { s with workers := s.workers.set i WorkerState.exited }
    else
      match s.taskQueue with
      | task :: rest =>
        some { s with taskQueue := rest,
                      workers := s.workers.set i (WorkerState.holding task),
                      dequeued := s.dequeued ++ [(i, task)] }
      | [] => some s
  else none

/-- Worker `i` calls `task()` (line 268). -/
def workerRun (s : Pool) (i : Nat) : Option Pool :=
  match s.workers[i]? with
  | some (WorkerState.holding task) =>
    some { s with workers := s.workers.set i WorkerState.ran,
                  executed := s.executed ++ [(i, task)] }
  | _ => none

/-- Worker `i` executes `activeThreads--` (line 269) and goes back to the head
of its loop. -/
def workerDone (s : Pool) (i : Nat) : Option Pool :=
  if s.workers[i]? = some WorkerState.ran then
    some { s with workers := s.workers.set i WorkerState.idle,
                  activeThreads := s.activeThreads - 1 }
  else none

/-- The guarded region of `main` that requests shutdown (lines 456-459). -/
def requestShutdown (s : Pool) : Pool := { s with shouldShutdown := true }

/-- One atomic step of the pool. -/
inductive Action where
  | submit
  | lock (i : Nat)
  | run (i : Nat)
  | done (i : Nat)
  | shutdown
deriving DecidableEq, Repr

/-- The state after one step, `none` when the step cannot be taken. `main`
requests shutdown only after it has joined the two acceptor threads, the only
callers of `submitTask`, so no task is submitted once the flag is set. -/
def Pool.step (s : Pool) : Action → Option Pool
  | Action.submit => if s.shouldShutdown = true then none else some (submitTask s)
  | Action.lock i => workerLocked s i
  | Action.run i => workerRun s i
  | Action.done i => workerDone s i
  | Action.shutdown => some (requestShutdown s)

/-- The state after a sequence of steps: one interleaving of the threads. -/
def Pool.steps : Pool → List Action → Option Pool
  | s, [] => some s
  | s, a :: rest =>
    match s.step a with
    | some s' => s'.steps rest
    | none => none

/-- The workers are joined: every one of the 4 threads has left its loop. -/
def Pool.Joined (s : Pool) : Prop := ∀ i, i < 4 → s.workers[i]? = some WorkerState.exited

instance (s : Pool) : Decidable s.Joined := by
  unfold Pool.Joined; infer_instance

end Sender

/-- The facts about the pool that hold in every reachable state. -/
structure PoolInv (s : Sender.Pool) : Prop where
  workers_length : s.workers.length = 4
  queue_lt : ∀ t ∈ s.taskQueue, t < s.submitted
  queue_nodup : s.taskQueue.Nodup
  held_lt : ∀ (i t : Nat), s.workers[i]? = some (Sender.WorkerState.holding t) → t < s.submitted
  held_not_queued : ∀ (i t : Nat), s.workers[i]? = some (Sender.WorkerState.holding t) →
    t ∉ s.taskQueue
  held_not_executed : ∀ (i t : Nat), s.workers[i]? = some (Sender.WorkerState.holding t) →
    t ∉ s.executed.map Prod.snd
  held_dequeued : ∀ (i t : Nat), s.workers[i]? = some (Sender.WorkerState.holding t) →
    (i, t) ∈ s.dequeued
  held_unique : ∀ (i j t : Nat), s.workers[i]? = some (Sender.WorkerState.holding t) →
    s.workers[j]? = some (Sender.WorkerState.holding t) → i = j
  executed_nodup : (s.executed.map Prod.snd).Nodup
  executed_dequeued : ∀ e ∈ s.executed, e ∈ s.dequeued
  dequeued_nodup : (s.dequeued.map Prod.snd).Nodup
  dequeued_lt : ∀ d ∈ s.dequeued, d.2 < s.submitted ∧ d.1 < 4
  dequeued_not_queued : ∀ d ∈ s.dequeued, d.2 ∉ s.taskQueue
  accounted : ∀ t, t < s.submitted → t ∈ s.taskQueue
    ∨ (∃ i : Nat, s.workers[i]? = some (Sender.WorkerState.holding t))
    ∨ t ∈ s.executed.map Prod.snd
  exited_drained : ∀ (i : Nat), s.workers[i]? = some Sender.WorkerState.exited →
    s.shouldShutdown = true ∧ s.taskQueue = []


/-! ## Outstanding tasks of the pool -/

namespace Sender

/-- A worker that has dequeued a task and has not yet executed
`activeThreads--` for it. -/
def WorkerState.busy : WorkerState → Bool
  | WorkerState.holding _ => true
  | WorkerState.ran => true
  | _ => false

/-- The number of queued tasks plus the number of tasks dequeued but not yet
finished. -/
def Pool.outstanding (s : Pool) : Nat :=
  s.taskQueue.length + s.workers.countP WorkerState.busy

end Sender

/-! ## Ports and roles (the two `main` functions) -/

/-- The direction of one transfer, seen from the process that runs it:
`Send` calls `sendFile`, `Receive` calls `receiveFile`. -/
inductive Role where
  | Send
  | Receive
deriving DecidableEq, Repr

/-- The role at the other end of a transfer that can work. -/
def Role.opposite : Role → Role
  | Role.Send => Role.Receive
  | Role.Receive => Role.Send

/-- The TCP port that `htons(port)` stands for: the low 16 bits of the `int`. -/
def htons (port : Int) : Int := port % 65536

namespace Sender

/-- The macro `PORT_RECEIVE` of sender.cpp. -/
def PORT_RECEIVE : Int := 5050

/-- The macro `PORT_SEND` of sender.cpp. -/
def PORT_SEND : Int := 5051

/-- The base port chosen by `main` (lines 310-316): `arg` is `atoi(argv[1])`
when an argument is given. -/
def basePort (arg : Option Int) : Int :=
  match arg with
  | none => PORT_RECEIVE
  | some p => if p > 0 then p else PORT_RECEIVE

/-- The task that `acceptOnPort` submits for one accepted connection (lines
412-441): the lambda captures the client socket, the file, `isSendMode` and
the port. -/
structure TransferTask where
  clientSock : Nat
  filename : String
  filepath : String
  isSendMode : Bool
  port : Int
deriving DecidableEq, Repr

/-- The body of the accept loop for one accepted connection `clientSock`:
the task handed to `submitTask`. -/
def acceptOnPort (port : Int) (isSendMode : Bool) (clientSock : Nat) : TransferTask :=
  { clientSock := clientSock, filename := "data.txt", filepath := "data.txt",
    isSendMode := isSendMode, port := port }

/-- What the task does when a worker runs it (lines 416-434): `sendFile` when
`isSendMode`, `receiveFile` otherwise. -/
def TransferTask.role (t : TransferTask) : Role :=
  if t.isSendMode then Role.Send else Role.Receive

/-- The two accept threads started by `main` (lines 318-319 and 448-449), each
as the `int` port it was given and its `isSendMode`: `recvThread` on
`receivePort` with `true`, `sendThread` on `sendPort` with `false`. The sum
`basePort + 1` is an `int`. -/
def acceptThreads (basePort : Int) : List (Int × Bool) :=
  let receivePort := basePort
  let sendPort := toInt32 (basePort + 1)
  [(receivePort, true), (sendPort, false)]

/-- The role of the tasks submitted for connections accepted on the TCP port
`port`, `none` when the hub does not listen on it. Each server socket is bound
to `htons` of the port of its thread (line 355). -/
def roleOfPort (basePort port : Int) : Option Role :=
  ((acceptThreads basePort).find? (fun a => decide (htons a.1 = port))).map
    (fun a => (acceptOnPort a.1 a.2 0).role)

end Sender

namespace Listener

/-- The macro `PORT` of listener.cpp. -/
def PORT : Int := 5050

/-- The macro `PORT_RECEIVE` of listener.cpp. -/
def PORT_RECEIVE : Int := 5050

/-- The macro `PORT_SEND` of listener.cpp. -/
def PORT_SEND : Int := 5051

/-- The port the peer connects to (lines 210-214); `port` is `PORT` or the
port given on the command line. -/
def actualPort (port : Int) (mode : String) : Int :=
  if mode = "send" then PORT_SEND
  else if mode = "receive" then PORT_RECEIVE
  else port

/-- The TCP port the peer connects to (line 229): `htons(actualPort)`. -/
def connectPort (port : Int) (mode : String) : Int := htons (actualPort port mode)

/-- The transfers the peer runs on its connection, in order (lines 245-293).
`receiveOk` is the result of `receiveFile`, which decides in mode `both`
whether `sendFile` is reached. -/
def transfers (mode fileToSend : String) (receiveOk : Bool) : List Role :=
  if mode = "receive" then [Role.Receive]
  else if mode = "send" then
    if fileToSend.isEmpty then [] else [Role.Send]
  else if mode = "both" then
    if !receiveOk then [Role.Receive]
    else if !fileToSend.isEmpty then [Role.Receive, Role.Send]
    else [Role.Receive]
  else []

end Listener

/-! ## Machine integers -/

theorem toInt32_eq_self (n : Int) (h1 : -2147483648 ≤ n) (h2 : n < 2147483648) :
    toInt32 n = n := by
  unfold toInt32; omega

theorem toInt64_eq_self (n : Int) (h1 : -9223372036854775808 ≤ n)
    (h2 : n < 9223372036854775808) : toInt64 n = n := by
  unfold toInt64; omega

/-- The size of the next chunk, as every chunked loop computes it, is the
smaller of `CHUNK_SIZE` and what is left. -/
theorem chunk_size_eq (rest : Int) (h : 0 < rest) :
    (if rest > CHUNK_SIZE then CHUNK_SIZE else toInt32 rest) = min 65536 rest := by
  unfold CHUNK_SIZE
  split
  · omega
  · rw [toInt32_eq_self _ (by omega) (by omega)]; omega

/-! ## Checksum -/

theorem xor_mask_cancel (c : Nat) : (c ^^^ 0xFFFFFFFF) ^^^ 0xFFFFFFFF = c := by
  rw [Nat.xor_assoc, Nat.xor_self, Nat.xor_zero]

theorem crc32_update_append (c : Nat) (a b : List Byte) :
    crc32_update (crc32_update c a) b = crc32_update c (a ++ b) := by
  unfold crc32_update
  rw [xor_mask_cancel, List.foldl_append]

theorem crc32_update_nil (c : Nat) : crc32_update c [] = c := by
  unfold crc32_update
  simp only [List.foldl_nil]
  exact xor_mask_cancel c

theorem crc32_update_chunks (c : Nat) (chunks : List (List Byte)) :
    chunks.foldl crc32_update c = crc32_update c chunks.flatten := by
  induction chunks generalizing c with
  | nil => simp [crc32_update_nil]
  | cons a rest ih =>
    simp only [List.foldl_cons, List.flatten_cons]
    rw [ih, crc32_update_append]

theorem take_drop_append_drop (l : List Byte) (k n : Nat) :
    (l.drop k).take n ++ l.drop (k + n) = l.drop k := by
  rw [← List.drop_drop]
  exact List.take_append_drop n (l.drop k)

theorem crcScanLoop_eq (fuel : Nat) (p : List Byte) (scanned : Nat) (crc : Nat)
    (hp : (p.length : Int) < 9223372036854775808)
    (hs : scanned ≤ p.length)
    (hfuel : p.length - scanned ≤ fuel) :
    crcScanLoop fuel ⟨p, scanned⟩ p.length scanned crc = crc32_update crc (p.drop scanned) := by
  induction fuel generalizing scanned crc with
  | zero =>
    have : p.length ≤ scanned := by omega
    simp [crcScanLoop, List.drop_eq_nil_of_le this, crc32_update_nil]
  | succ fuel ih =>
    unfold crcScanLoop
    by_cases hlt : (scanned : Int) < p.length
    · simp only [hlt, if_true]
      have hto : (if (p.length : Int) - scanned > CHUNK_SIZE then CHUNK_SIZE
          else toInt32 ((p.length : Int) - scanned))
          = ((min 65536 (p.length - scanned) : Nat) : Int) := by
        rw [chunk_size_eq _ (by omega)]; omega
      rw [hto]
      have hlen : ((p.drop scanned).take (min 65536 (p.length - scanned))).length
          = min 65536 (p.length - scanned) := by
        rw [List.length_take, List.length_drop]; omega
      simp only [IFStream.read, Int.toNat_ofNat, hlen]
      have hpos : ¬ ((min 65536 (p.length - scanned) : Nat) : Int) ≤ 0 := by omega
      rw [if_neg hpos]
      have hcast : (scanned : Int) + ((min 65536 (p.length - scanned) : Nat) : Int)
          = ((scanned + min 65536 (p.length - scanned) : Nat) : Int) := by push_cast; rfl
      rw [hcast, ih _ _ (by omega) (by omega), crc32_update_append, take_drop_append_drop]
    · have : p.length ≤ scanned := by omega
      simp [hlt, List.drop_eq_nil_of_le this, crc32_update_nil]

theorem fileCrc_eq (p : List Byte) (hp : (p.length : Int) < 9223372036854775808) :
    fileCrc p = crc32_update 0xFFFFFFFF p := by
  unfold fileCrc
  rw [toInt64_eq_self _ (by omega) hp]
  have := crcScanLoop_eq (p.length) p 0 0xFFFFFFFF hp (by omega) (by omega)
  simpa using this

/-! ## Receiving exactly `len` bytes -/

theorem recvExactBytesLoop_spec (fuel : Nat) (sock : Socket) (len total : Int)
    (buf : List Byte) (hlive : sock.Live) (h0 : total ≤ len)
    (hfuel : (len - total).toNat ≤ fuel) :
    (len - total ≤ sock.pending.length →
      ∃ sock', Sender.recvExactBytesLoop fuel sock len total buf
          = (some (buf ++ sock.pending.take (len - total).toNat), sock')
        ∧ sock'.Live ∧ sock'.pending = sock.pending.drop (len - total).toNat
        ∧ sock'.sendScript = sock.sendScript ∧ sock'.wire = sock.wire)
    ∧ ((sock.pending.length : Int) < len - total →
      ∃ sock', Sender.recvExactBytesLoop fuel sock len total buf = (none, sock')) := by
  induction fuel generalizing sock total buf with
  | zero =>
    have ht : total = len := by omega
    subst ht
    constructor
    · intro _
      exact ⟨sock, by simp [Sender.recvExactBytesLoop], hlive, by simp, rfl, rfl⟩
    · intro h; omega
  | succ fuel ih =>
    unfold Sender.recvExactBytesLoop
    by_cases hlt : total < len
    · rw [if_pos hlt]
      obtain ⟨inbox, script, wire⟩ := sock
      cases inbox with
      | nil =>
        constructor
        · intro h; simp [Socket.pending] at h; omega
        · intro _; exact ⟨Socket.mk [] script wire, by simp [recv]⟩
      | cons seg rest =>
        have hseg : seg ≠ [] := hlive seg (by simp)
        have hsegpos : 0 < seg.length := List.length_pos.mpr hseg
        have hrest : (Socket.mk rest script wire).Live := fun s hs => hlive s (by simp [hs])
        by_cases hle : (seg.length : Int) ≤ len - total
        · have hn : ¬ ((seg.length : Int) ≤ 0) := by omega
          simp only [recv, hle, if_true, hn, if_false]
          have ih' := ih (Socket.mk rest script wire) (total + seg.length) (buf ++ seg) hrest
            (by omega) (by omega)
          have hpend : (Socket.mk (seg :: rest) script wire).pending
              = seg ++ (Socket.mk rest script wire).pending := by simp [Socket.pending]
          have hnat : (len - total).toNat
              = seg.length + (len - (total + seg.length)).toNat := by omega
          rw [hpend]
          constructor
          · intro h
            rw [List.length_append] at h
            obtain ⟨sock', h1, h2, h3, h4, h5⟩ := ih'.1 (by push_cast at h; omega)
            refine ⟨sock', ?_, h2, ?_, h4, h5⟩
            · rw [h1, hnat, List.take_append, List.append_assoc]
            · rw [h3, hnat, List.drop_append]
          · intro h
            rw [List.length_append] at h
            exact ih'.2 (by push_cast at h; omega)
        · have hn : ¬ (len - total ≤ 0) := by omega
          simp only [recv, hle, if_false, hn]
          have hlive' : (Socket.mk (seg.drop (len - total).toNat :: rest) script wire).Live := by
            intro s hs
            simp only [List.mem_cons] at hs
            rcases hs with rfl | hs
            · intro hnil
              have := congrArg List.length hnil
              simp at this; omega
            · exact hlive s (by simp [hs])
          have ih' := ih (Socket.mk (seg.drop (len - total).toNat :: rest) script wire)
            (total + (len - total)) (buf ++ seg.take (len - total).toNat) hlive'
            (by omega) (by omega)
          have hz : (len - (total + (len - total))).toNat = 0 := by omega
          constructor
          · intro _
            obtain ⟨sock', h1, h2, h3, h4, h5⟩ := ih'.1 (by omega)
            refine ⟨sock', ?_, h2, ?_, h4, h5⟩
            · rw [h1, hz]
              simp only [List.take_zero, List.append_nil, Socket.pending, List.flatten_cons]
              rw [List.take_append_of_le_length (by omega)]
            · rw [h3, hz]
              simp only [List.drop_zero, Socket.pending, List.flatten_cons]
              rw [List.drop_append_of_le_length (by omega)]
          · intro h
            simp only [Socket.pending, List.flatten_cons, List.length_append] at h
            omega
    · have ht : total = len := by omega
      subst ht
      rw [if_neg hlt]
      constructor
      · intro _
        exact ⟨sock, by simp, hlive, by simp, rfl, rfl⟩
      · intro h; omega

theorem recvExactBytes_ok (sock : Socket) (len : Int) (hlive : sock.Live) (h0 : 0 ≤ len)
    (h : len ≤ sock.pending.length) :
    ∃ sock', Sender.recvExactBytes sock len = (some (sock.pending.take len.toNat), sock')
      ∧ sock'.Live ∧ sock'.pending = sock.pending.drop len.toNat
      ∧ sock'.sendScript = sock.sendScript ∧ sock'.wire = sock.wire := by
  have := (recvExactBytesLoop_spec len.toNat sock len 0 [] hlive h0 (by omega)).1 (by omega)
  simpa [Sender.recvExactBytes] using this

theorem recvExactBytes_short (sock : Socket) (len : Int) (hlive : sock.Live)
    (h : (sock.pending.length : Int) < len) :
    ∃ sock', Sender.recvExactBytes sock len = (none, sock') := by
  have := (recvExactBytesLoop_spec len.toNat sock len 0 [] hlive (by omega) (by omega)).2
    (by omega)
  simpa [Sender.recvExactBytes] using this

/-! ## The payload loop of `receiveFile` -/

theorem recvPayloadLoop_spec (fuel : Nat) (sock : Socket) (fileSize recvd : Int)
    (out : List Byte) (hlive : sock.Live) (hfuel : fileSize - recvd ≤ 65536 * (fuel : Int)) :
    (fileSize - recvd ≤ sock.pending.length →
      ∃ sock', Sender.recvPayloadLoop fuel sock fileSize recvd out
          = (true, sock', out ++ sock.pending.take (fileSize - recvd).toNat)
        ∧ sock'.Live ∧ sock'.pending = sock.pending.drop (fileSize - recvd).toNat
        ∧ sock'.sendScript = sock.sendScript ∧ sock'.wire = sock.wire)
    ∧ ((sock.pending.length : Int) < fileSize - recvd →
      ∃ sock', Sender.recvPayloadLoop fuel sock fileSize recvd out
          = (false, sock', out ++ sock.pending.take (65536 * (sock.pending.length / 65536)))) := by
  induction fuel generalizing sock recvd out with
  | zero =>
    have hz : (fileSize - recvd).toNat = 0 := by omega
    have hn : ¬ recvd < fileSize := by omega
    constructor
    · intro _
      exact ⟨sock, by simp [Sender.recvPayloadLoop, hn, hz], hlive, by simp [hz], rfl, rfl⟩
    · intro h; omega
  | succ fuel ih =>
    unfold Sender.recvPayloadLoop
    by_cases hlt : recvd < fileSize
    · rw [if_pos hlt]
      simp only [chunk_size_eq (fileSize - recvd) (by omega)]
      by_cases hle : min 65536 (fileSize - recvd) ≤ (sock.pending.length : Int)
      · obtain ⟨s1, h1, hl1, hp1, hs1, hw1⟩ :=
          recvExactBytes_ok sock (min 65536 (fileSize - recvd)) hlive (by omega) hle
        rw [h1]
        simp only
        have ih' := ih s1 (recvd + min 65536 (fileSize - recvd))
          (out ++ sock.pending.take (min 65536 (fileSize - recvd)).toNat) hl1
          (by push_cast at hfuel; omega)
        have hlen1 : (s1.pending.length : Int)
            = sock.pending.length - min 65536 (fileSize - recvd) := by
          rw [hp1, List.length_drop]; omega
        constructor
        · intro h
          obtain ⟨s2, h2, hl2, hp2, hs2, hw2⟩ := ih'.1 (by omega)
          refine ⟨s2, ?_, hl2, ?_, by rw [hs2, hs1], by rw [hw2, hw1]⟩
          · have hsum : (min 65536 (fileSize - recvd)).toNat
                + (fileSize - (recvd + min 65536 (fileSize - recvd))).toNat
                = (fileSize - recvd).toNat := by omega
            rw [h2, hp1, List.append_assoc, ← List.take_add, hsum]
          · have hsum : (min 65536 (fileSize - recvd)).toNat
                + (fileSize - (recvd + min 65536 (fileSize - recvd))).toNat
                = (fileSize - recvd).toNat := by omega
            rw [hp2, hp1, List.drop_drop, hsum]
        · intro h
          obtain ⟨s2, h2⟩ := ih'.2 (by omega)
          refine ⟨s2, ?_⟩
          have hm : (min 65536 (fileSize - recvd)).toNat = 65536 := by omega
          have h65 : 65536 ≤ sock.pending.length := by omega
          have hsum : 65536 + 65536 * ((sock.pending.length - 65536) / 65536)
              = 65536 * (sock.pending.length / 65536) := by omega
          rw [h2, hp1, hm, List.append_assoc, ← List.take_add, List.length_drop, hsum]
      · obtain ⟨s1, h1⟩ :=
          recvExactBytes_short sock (min 65536 (fileSize - recvd)) hlive (by omega)
        rw [h1]
        simp only
        constructor
        · intro h; omega
        · intro _
          refine ⟨s1, ?_⟩
          have hz : sock.pending.length / 65536 = 0 := by omega
          rw [hz]; simp
    · rw [if_neg hlt]
      have hz : (fileSize - recvd).toNat = 0 := by omega
      constructor
      · intro _
        exact ⟨sock, by simp [hz], hlive, by simp [hz], rfl, rfl⟩
      · intro h; omega

/-! ## Header integers -/

theorem and_ff (x : Nat) : x &&& 0xFF = x % 256 := Nat.and_pow_two_sub_one_eq_mod x 8

theorem or_shiftLeft_eq_add (x b k : Nat) (hx : x < 2 ^ k) :
    x ||| (b <<< k) = x + 2 ^ k * b := by
  rw [Nat.shiftLeft_eq, Nat.or_comm, Nat.mul_comm, ← Nat.mul_add_lt_is_or hx, Nat.add_comm]

theorem byte_toNat_lt (b : Byte) : b.toNat < 256 := UInt8.toNat_lt_size b

theorem byte_ofNat_toNat (n : Nat) (h : n < 256) : (UInt8.ofNat n).toNat = n :=
  UInt8.toNat_ofNat_of_lt h

theorem decodeFnLen_eq (b0 b1 b2 b3 : Byte) :
    Sender.decodeFnLen [b0, b1, b2, b3]
      = toInt32 ((b0.toNat + 2 ^ 8 * b1.toNat + 2 ^ 16 * b2.toNat + 2 ^ 24 * b3.toNat : Nat) : Int) := by
  have h0 := byte_toNat_lt b0
  have h1 := byte_toNat_lt b1
  have h2 := byte_toNat_lt b2
  have h3 := byte_toNat_lt b3
  unfold Sender.decodeFnLen
  simp only [List.getD_cons_zero, List.getD_cons_succ, and_ff, Nat.mod_eq_of_lt h0,
    Nat.mod_eq_of_lt h1, Nat.mod_eq_of_lt h2, Nat.mod_eq_of_lt h3]
  rw [or_shiftLeft_eq_add _ _ 8 (by omega), or_shiftLeft_eq_add _ _ 16 (by omega),
    or_shiftLeft_eq_add _ _ 24 (by omega)]

theorem decodeFileSize_eq (c0 c1 c2 c3 c4 c5 c6 c7 : Byte) :
    Sender.decodeFileSize [c0, c1, c2, c3, c4, c5, c6, c7]
      = toInt64 ((c0.toNat + 2 ^ 8 * c1.toNat + 2 ^ 16 * c2.toNat + 2 ^ 24 * c3.toNat
          + 2 ^ 32 * c4.toNat + 2 ^ 40 * c5.toNat + 2 ^ 48 * c6.toNat
          + 2 ^ 56 * c7.toNat : Nat) : Int) := by
  have h0 := byte_toNat_lt c0
  have h1 := byte_toNat_lt c1
  have h2 := byte_toNat_lt c2
  have h3 := byte_toNat_lt c3
  have h4 := byte_toNat_lt c4
  have h5 := byte_toNat_lt c5
  have h6 := byte_toNat_lt c6
  have h7 := byte_toNat_lt c7
  unfold Sender.decodeFileSize
  simp only [List.range, List.range.loop, List.foldl_cons, List.foldl_nil,
    List.getD_cons_zero, List.getD_cons_succ, and_ff, Nat.mod_eq_of_lt h0,
    Nat.mod_eq_of_lt h1, Nat.mod_eq_of_lt h2, Nat.mod_eq_of_lt h3, Nat.mod_eq_of_lt h4,
    Nat.mod_eq_of_lt h5, Nat.mod_eq_of_lt h6, Nat.mod_eq_of_lt h7, Nat.zero_mul,
    Nat.shiftLeft_zero, Nat.zero_or]
  rw [or_shiftLeft_eq_add _ _ (1 * 8) (by omega), or_shiftLeft_eq_add _ _ (2 * 8) (by omega),
    or_shiftLeft_eq_add _ _ (3 * 8) (by omega), or_shiftLeft_eq_add _ _ (4 * 8) (by omega),
    or_shiftLeft_eq_add _ _ (5 * 8) (by omega), or_shiftLeft_eq_add _ _ (6 * 8) (by omega),
    or_shiftLeft_eq_add _ _ (7 * 8) (by omega)]

theorem byteAt_natCast (n i : Nat) :
    byteAt (n : Int) i = UInt8.ofNat (n / 2 ^ (8 * i) % 256) := by
  unfold byteAt
  congr 1
  have h : ((n : Int) / 2 ^ (8 * i)) % 256 = ((n / 2 ^ (8 * i) % 256 : Nat) : Int) := by
    push_cast; rfl
  rw [h, Int.toNat_ofNat]

theorem le32_eq (n : Nat) :
    [byteAt (n : Int) 0, byteAt (n : Int) 1, byteAt (n : Int) 2, byteAt (n : Int) 3]
      = littleEndian 4 n := by
  simp only [byteAt_natCast, littleEndian]
  norm_num [Nat.div_div_eq_div_mul]

theorem le64_eq (n : Nat) : (List.range 8).map (byteAt (n : Int)) = littleEndian 8 n := by
  simp only [List.range, List.range.loop, List.map_cons, List.map_nil, byteAt_natCast,
    littleEndian]
  norm_num [Nat.div_div_eq_div_mul]

theorem littleEndian_length (width n : Nat) : (littleEndian width n).length = width := by
  induction width generalizing n with
  | zero => rfl
  | succ w ih => simp [littleEndian, ih]

theorem littleEndianValue_littleEndian (width n : Nat) :
    littleEndianValue (littleEndian width n) = n % 256 ^ width := by
  induction width generalizing n with
  | zero => simp [littleEndian, littleEndianValue, Nat.mod_one]
  | succ w ih =>
    simp only [littleEndian, littleEndianValue, ih]
    rw [byte_ofNat_toNat _ (Nat.mod_lt _ (by norm_num)), pow_succ, Nat.mul_comm (256 ^ w) 256,
      Nat.mod_mul]

theorem decodeFnLen_littleEndian (n : Nat) (h : n < 2147483648) :
    Sender.decodeFnLen (littleEndian 4 n) = n := by
  simp only [littleEndian]
  rw [decodeFnLen_eq]
  simp only [byte_ofNat_toNat _ (Nat.mod_lt _ (by norm_num : 0 < 256))]
  rw [toInt32_eq_self _ (by omega) (by omega)]
  norm_cast
  omega

theorem decodeFileSize_littleEndian (n : Nat) (h : n < 9223372036854775808) :
    Sender.decodeFileSize (littleEndian 8 n) = n := by
  simp only [littleEndian]
  rw [decodeFileSize_eq]
  simp only [byte_ofNat_toNat _ (Nat.mod_lt _ (by norm_num : 0 < 256))]
  rw [toInt64_eq_self _ (by omega) (by omega)]
  norm_cast
  omega

/-! ## `receiveFile`, path by path -/

theorem receiveFile_fail_len (canCreate : List Byte → Bool) (sock s1 : Socket)
    (h1 : Sender.recvExactBytes sock 4 = (none, s1)) :
    Sender.receiveFile canCreate sock = ⟨Outcome.failure, s1, none, none⟩ := by
  unfold Sender.receiveFile
  split
  · rename_i heq
    rw [h1] at heq
    cases heq
    rfl
  · rename_i heq
    rw [h1] at heq
    cases heq

theorem receiveFile_fail_name (canCreate : List Byte → Bool) (sock s1 s2 : Socket)
    (lenBuf : List Byte)
    (h1 : Sender.recvExactBytes sock 4 = (some lenBuf, s1))
    (n : Int) (hn : Sender.decodeFnLen lenBuf = n) (hneg : ¬ n < 0)
    (h2 : Sender.recvExactBytes s1 n = (none, s2)) :
    Sender.receiveFile canCreate sock = ⟨Outcome.failure, s2, none, none⟩ := by
  unfold Sender.receiveFile
  split
  · rename_i heq
    rw [h1] at heq
    cases heq
  · rename_i heq
    rw [h1] at heq
    cases heq
    rw [hn]
    dsimp only
    rw [if_neg hneg]
    split
    · rename_i heq
      rw [h2] at heq
      cases heq
      rfl
    · rename_i heq
      rw [h2] at heq
      cases heq

theorem receiveFile_fail_size (canCreate : List Byte → Bool) (sock s1 s2 s3 : Socket)
    (lenBuf filename : List Byte)
    (h1 : Sender.recvExactBytes sock 4 = (some lenBuf, s1))
    (n : Int) (hn : Sender.decodeFnLen lenBuf = n) (hneg : ¬ n < 0)
    (h2 : Sender.recvExactBytes s1 n = (some filename, s2))
    (h3 : Sender.recvExactBytes s2 8 = (none, s3)) :
    Sender.receiveFile canCreate sock = ⟨Outcome.failure, s3, none, none⟩ := by
  unfold Sender.receiveFile
  split
  · rename_i heq
    rw [h1] at heq
    cases heq
  · rename_i heq
    rw [h1] at heq
    cases heq
    rw [hn]
    dsimp only
    rw [if_neg hneg]
    split
    · rename_i heq
      rw [h2] at heq
      cases heq
    · rename_i heq
      rw [h2] at heq
      cases heq
      split
      · rename_i heq
        rw [h3] at heq
        cases heq
        rfl
      · rename_i heq
        rw [h3] at heq
        cases heq

theorem receiveFile_payload (canCreate : List Byte → Bool) (sock s1 s2 s3 s4 : Socket)
    (lenBuf filename sizeBuf out : List Byte) (b : Bool)
    (h1 : Sender.recvExactBytes sock 4 = (some lenBuf, s1))
    (n : Int) (hn : Sender.decodeFnLen lenBuf = n) (hneg : ¬ n < 0)
    (h2 : Sender.recvExactBytes s1 n = (some filename, s2))
    (h3 : Sender.recvExactBytes s2 8 = (some sizeBuf, s3))
    (hcreate : canCreate (c_str (Sender.outFilename filename)) = true)
    (N : Int) (hN : Sender.decodeFileSize sizeBuf = N)
    (hpay : Sender.recvPayloadLoop (N / CHUNK_SIZE + 1).toNat s3 N 0 [] = (b, s4, out)) :
    Sender.receiveFile canCreate sock
      = ⟨if b then Outcome.success else Outcome.failure, s4, some (filename, N),
          some (c_str (Sender.outFilename filename), out)⟩ := by
  unfold Sender.receiveFile
  split
  · rename_i heq
    rw [h1] at heq
    cases heq
  · rename_i heq
    rw [h1] at heq
    cases heq
    rw [hn]
    dsimp only
    rw [if_neg hneg]
    split
    · rename_i heq
      rw [h2] at heq
      cases heq
    · rename_i heq
      rw [h2] at heq
      cases heq
      split
      · rename_i heq
        rw [h3] at heq
        cases heq
      · rename_i heq
        rw [h3] at heq
        cases heq
        rw [hN, if_pos hcreate]
        split
        · rename_i heq
          rw [hpay] at heq
          cases heq
          rfl
        · rename_i heq
          rw [hpay] at heq
          cases heq
          rfl

/-! ## `receiveFile` on a stream that starts with a well-formed header -/

theorem receiveFile_frame (canCreate : List Byte → Bool) (sock : Socket)
    (hdr name size8 rest : List Byte) (hlive : sock.Live)
    (hpend : sock.pending = hdr ++ (name ++ (size8 ++ rest)))
    (hhdr : hdr.length = 4) (hL : Sender.decodeFnLen hdr = name.length)
    (hsize : size8.length = 8) (hcreate : canCreate (c_str (Sender.outFilename name)) = true) :
    (Sender.decodeFileSize size8 ≤ rest.length →
      ∃ sock', Sender.receiveFile canCreate sock
          = ⟨Outcome.success, sock', some (name, Sender.decodeFileSize size8),
              some (c_str (Sender.outFilename name), rest.take (Sender.decodeFileSize size8).toNat)⟩
        ∧ sock'.Live ∧ sock'.pending = rest.drop (Sender.decodeFileSize size8).toNat
        ∧ sock'.sendScript = sock.sendScript ∧ sock'.wire = sock.wire)
    ∧ ((rest.length : Int) < Sender.decodeFileSize size8 →
      ∃ sock', Sender.receiveFile canCreate sock
          = ⟨Outcome.failure, sock', some (name, Sender.decodeFileSize size8),
              some (c_str (Sender.outFilename name), rest.take (65536 * (rest.length / 65536)))⟩) := by
  obtain ⟨s1, h1, hl1, hp1, hs1, hw1⟩ :=
    recvExactBytes_ok sock 4 hlive (by omega) (by simp [hpend, hhdr]; omega)
  have ht1 : sock.pending.take (4 : Int).toNat = hdr := by
    rw [hpend]; simp [← hhdr]
  have hd1 : s1.pending = name ++ (size8 ++ rest) := by
    rw [hp1, hpend]; simp [← hhdr]
  rw [ht1] at h1
  obtain ⟨s2, h2, hl2, hp2, hs2, hw2⟩ :=
    recvExactBytes_ok s1 (name.length : Int) hl1 (by omega) (by simp [hd1]; omega)
  have ht2 : s1.pending.take (name.length : Int).toNat = name := by
    rw [hd1]; simp
  have hd2 : s2.pending = size8 ++ rest := by
    rw [hp2, hd1]; simp
  rw [ht2] at h2
  obtain ⟨s3, h3, hl3, hp3, hs3, hw3⟩ :=
    recvExactBytes_ok s2 8 hl2 (by omega) (by simp [hd2, hsize])
  have ht3 : s2.pending.take (8 : Int).toNat = size8 := by
    rw [hd2]; simp [← hsize]
  have hd3 : s3.pending = rest := by
    rw [hp3, hd2]; simp [← hsize]
  rw [ht3] at h3
  have hneg : ¬ ((name.length : Int) < 0) := by omega
  have hloop := recvPayloadLoop_spec (Sender.decodeFileSize size8 / CHUNK_SIZE + 1).toNat s3
    (Sender.decodeFileSize size8) 0 [] hl3 (by unfold CHUNK_SIZE; omega)
  rw [Int.sub_zero, hd3, List.nil_append, List.nil_append] at hloop
  constructor
  · intro h
    obtain ⟨s4, h4, hl4, hp4, hs4, hw4⟩ := hloop.1 h
    exact ⟨s4, receiveFile_payload canCreate sock s1 s2 s3 s4 hdr name size8 _ true
      h1 _ hL hneg h2 h3 hcreate _ rfl h4, hl4, hp4, by rw [hs4, hs3, hs2, hs1],
      by rw [hw4, hw3, hw2, hw1]⟩
  · intro h
    obtain ⟨s4, h4⟩ := hloop.2 h
    exact ⟨s4, receiveFile_payload canCreate sock s1 s2 s3 s4 hdr name size8 _ false
      h1 _ hL hneg h2 h3 hcreate _ rfl h4⟩

theorem receiveFile_short_len (canCreate : List Byte → Bool) (sock : Socket)
    (hlive : sock.Live) (h : sock.pending.length < 4) :
    (Sender.receiveFile canCreate sock).outcome = Outcome.failure
      ∧ (Sender.receiveFile canCreate sock).outfile = none := by
  obtain ⟨s1, h1⟩ := recvExactBytes_short sock 4 hlive (by omega)
  rw [receiveFile_fail_len canCreate sock s1 h1]
  exact ⟨rfl, rfl⟩

theorem receiveFile_short_header (canCreate : List Byte → Bool) (sock : Socket)
    (hlive : sock.Live) (h4 : 4 ≤ sock.pending.length)
    (hL : 0 ≤ Sender.decodeFnLen (sock.pending.take 4))
    (h : (sock.pending.length : Int) < 12 + Sender.decodeFnLen (sock.pending.take 4)) :
    (Sender.receiveFile canCreate sock).outcome = Outcome.failure
      ∧ (Sender.receiveFile canCreate sock).outfile = none := by
  obtain ⟨s1, h1, hl1, hp1, hs1, hw1⟩ :=
    recvExactBytes_ok sock 4 hlive (by omega) (by omega)
  have ht : (4 : Int).toNat = 4 := rfl
  rw [ht] at h1 hp1
  have hlen1 : s1.pending.length = sock.pending.length - 4 := by
    rw [hp1, List.length_drop]
  generalize hLdef : Sender.decodeFnLen (sock.pending.take 4) = L at hL h
  have hneg : ¬ (L < 0) := by omega
  by_cases hname : L ≤ s1.pending.length
  · obtain ⟨s2, h2, hl2, hp2, hs2, hw2⟩ := recvExactBytes_ok s1 L hl1 hL hname
    have hlen2 : (s2.pending.length : Int) = s1.pending.length - L := by
      rw [hp2, List.length_drop]; omega
    obtain ⟨s3, h3⟩ := recvExactBytes_short s2 8 hl2 (by omega)
    rw [receiveFile_fail_size canCreate sock s1 s2 s3 _ _ h1 L hLdef hneg h2 h3]
    exact ⟨rfl, rfl⟩
  · obtain ⟨s2, h2⟩ := recvExactBytes_short s1 L hl1 (by omega)
    rw [receiveFile_fail_name canCreate sock s1 s2 _ h1 L hLdef hneg h2]
    exact ⟨rfl, rfl⟩

/-! ## Sending -/

theorem take_append_take_drop (l : List Byte) (a k m : Nat) :
    (l.drop a).take k ++ (l.drop (a + k)).take m = (l.drop a).take (k + m) := by
  rw [List.take_add, List.drop_drop]

theorem hub_sendAllBytesLoop_wire (fuel : Nat) (sock sock' : Socket) (buf : List Byte)
    (len total : Int) (h0 : 0 ≤ total)
    (h : Sender.sendAllBytesLoop fuel sock buf len total = (true, sock')) :
    sock'.wire = sock.wire ++ (buf.drop total.toNat).take (len - total).toNat
      ∧ sock'.inbox = sock.inbox := by
  induction fuel generalizing sock total with
  | zero =>
    simp only [Sender.sendAllBytesLoop, Prod.mk.injEq, decide_eq_true_eq] at h
    obtain ⟨hlt, rfl⟩ := h
    have hz : (len - total).toNat = 0 := by omega
    simp [hz]
  | succ fuel ih =>
    unfold Sender.sendAllBytesLoop at h
    by_cases hlt : total < len
    · rw [if_pos hlt] at h
      obtain ⟨inbox, script, wire⟩ := sock
      cases script with
      | nil => simp [send, SOCKET_ERROR] at h
      | cons o rest =>
        cases o with
        | error => simp [send, SOCKET_ERROR] at h
        | accept n =>
          simp only [send, SOCKET_ERROR] at h
          have hne : ¬ (((min n (len - total).toNat : Nat) : Int) = -1) := by omega
          rw [if_neg hne] at h
          by_cases hk : ((min n (len - total).toNat : Nat) : Int) = 0
          · rw [if_pos hk] at h
            simp at h
          · rw [if_neg hk] at h
            obtain ⟨hw, hi⟩ := ih _ _ (by omega) h
            refine ⟨?_, hi⟩
            rw [hw]
            have e1 : (total + ((min n (len - total).toNat : Nat) : Int)).toNat
                = total.toNat + min n (len - total).toNat := by omega
            have e2 : (len - (total + ((min n (len - total).toNat : Nat) : Int))).toNat
                = (len - total).toNat - min n (len - total).toNat := by omega
            have e3 : min n (len - total).toNat
                + ((len - total).toNat - min n (len - total).toNat) = (len - total).toNat := by
              omega
            rw [e1, e2, List.append_assoc, take_append_take_drop, e3]
    · rw [if_neg hlt] at h
      simp only [Prod.mk.injEq, true_and] at h
      subst h
      have hz : (len - total).toNat = 0 := by omega
      simp [hz]

theorem hub_sendAllBytes_wire (sock sock' : Socket) (buf : List Byte) (len : Int)
    (h : Sender.sendAllBytes sock buf len = (true, sock')) :
    sock'.wire = sock.wire ++ buf.take len.toNat ∧ sock'.inbox = sock.inbox := by
  have := hub_sendAllBytesLoop_wire _ sock sock' buf len 0 (by omega) h
  simpa using this

theorem peer_sendAllBytesLoop_wire (fuel : Nat) (sock sock' : Socket) (buf : List Byte)
    (len total : Int) (h0 : 0 ≤ total)
    (h : Listener.sendAllBytesLoop fuel sock buf len total = (true, sock')) :
    sock'.wire = sock.wire ++ (buf.drop total.toNat).take (len - total).toNat
      ∧ sock'.inbox = sock.inbox := by
  induction fuel generalizing sock total with
  | zero =>
    simp only [Listener.sendAllBytesLoop, Prod.mk.injEq, decide_eq_true_eq] at h
    obtain ⟨hlt, rfl⟩ := h
    have hz : (len - total).toNat = 0 := by omega
    simp [hz]
  | succ fuel ih =>
    unfold Listener.sendAllBytesLoop at h
    by_cases hlt : total < len
    · rw [if_pos hlt] at h
      obtain ⟨inbox, script, wire⟩ := sock
      cases script with
      | nil => simp [send, SOCKET_ERROR] at h
      | cons o rest =>
        cases o with
        | error => simp [send, SOCKET_ERROR] at h
        | accept n =>
          simp only [send, SOCKET_ERROR] at h
          have hne : ¬ (((min n (len - total).toNat : Nat) : Int) = -1) := by omega
          rw [if_neg hne] at h
          obtain ⟨hw, hi⟩ := ih _ _ (by omega) h
          refine ⟨?_, hi⟩
          rw [hw]
          have e1 : (total + ((min n (len - total).toNat : Nat) : Int)).toNat
              = total.toNat + min n (len - total).toNat := by omega
          have e2 : (len - (total + ((min n (len - total).toNat : Nat) : Int))).toNat
              = (len - total).toNat - min n (len - total).toNat := by omega
          have e3 : min n (len - total).toNat
              + ((len - total).toNat - min n (len - total).toNat) = (len - total).toNat := by
            omega
          rw [e1, e2, List.append_assoc, take_append_take_drop, e3]
    · rw [if_neg hlt] at h
      simp only [Prod.mk.injEq, true_and] at h
      subst h
      have hz : (len - total).toNat = 0 := by omega
      simp [hz]

theorem peer_sendAllBytes_wire (sock sock' : Socket) (buf : List Byte) (len : Int)
    (h : Listener.sendAllBytes sock buf len = (true, sock')) :
    sock'.wire = sock.wire ++ buf.take len.toNat ∧ sock'.inbox = sock.inbox := by
  have := peer_sendAllBytesLoop_wire _ sock sock' buf len 0 (by omega) h
  simpa using this

theorem hub_sendPayloadLoop_wire (fuel : Nat) (sock sock' : Socket) (p : List Byte)
    (sent : Nat) (hs : sent ≤ p.length)
    (h : Sender.sendPayloadLoop fuel sock ⟨p, sent⟩ p.length sent = (true, sock')) :
    sock'.wire = sock.wire ++ p.drop sent ∧ sock'.inbox = sock.inbox := by
  induction fuel generalizing sock sent with
  | zero =>
    simp only [Sender.sendPayloadLoop, Prod.mk.injEq, decide_eq_true_eq] at h
    obtain ⟨hlt, rfl⟩ := h
    have : p.length ≤ sent := by omega
    simp [List.drop_eq_nil_of_le this]
  | succ fuel ih =>
    unfold Sender.sendPayloadLoop at h
    by_cases hlt : (sent : Int) < p.length
    · rw [if_pos hlt] at h
      have hto : (if (p.length : Int) - sent > CHUNK_SIZE then CHUNK_SIZE
          else toInt32 ((p.length : Int) - sent))
          = ((min 65536 (p.length - sent) : Nat) : Int) := by
        rw [chunk_size_eq _ (by omega)]; omega
      rw [hto] at h
      have hlen : ((p.drop sent).take (min 65536 (p.length - sent))).length
          = min 65536 (p.length - sent) := by
        rw [List.length_take, List.length_drop]; omega
      simp only [IFStream.read, Int.toNat_ofNat, hlen] at h
      split at h
      · simp at h
      · rename_i s1 heq
        obtain ⟨hw1, hi1⟩ := hub_sendAllBytes_wire _ _ _ _ heq
        have hcast : (sent : Int) + ((min 65536 (p.length - sent) : Nat) : Int)
            = ((sent + min 65536 (p.length - sent) : Nat) : Int) := by push_cast; rfl
        rw [hcast] at h
        obtain ⟨hw, hi⟩ := ih s1 _ (by omega) h
        refine ⟨?_, by rw [hi, hi1]⟩
        rw [hw, hw1, Int.toNat_ofNat, List.take_take, Nat.min_self, List.append_assoc,
          take_drop_append_drop]
    · rw [if_neg hlt] at h
      simp only [Prod.mk.injEq, true_and] at h
      subst h
      have : p.length ≤ sent := by omega
      simp [List.drop_eq_nil_of_le this]

theorem peer_sendPayloadLoop_wire (fuel : Nat) (sock sock' : Socket) (p : List Byte)
    (sent : Nat) (hs : sent ≤ p.length)
    (h : Listener.sendPayloadLoop fuel sock ⟨p, sent⟩ p.length sent = (true, sock')) :
    sock'.wire = sock.wire ++ p.drop sent ∧ sock'.inbox = sock.inbox := by
  induction fuel generalizing sock sent with
  | zero =>
    simp only [Listener.sendPayloadLoop, Prod.mk.injEq, decide_eq_true_eq] at h
    obtain ⟨hlt, rfl⟩ := h
    have : p.length ≤ sent := by omega
    simp [List.drop_eq_nil_of_le this]
  | succ fuel ih =>
    unfold Listener.sendPayloadLoop at h
    by_cases hlt : (sent : Int) < p.length
    · rw [if_pos hlt] at h
      have hto : (if (p.length : Int) - sent > CHUNK_SIZE then CHUNK_SIZE
          else toInt32 ((p.length : Int) - sent))
          = ((min 65536 (p.length - sent) : Nat) : Int) := by
        rw [chunk_size_eq _ (by omega)]; omega
      rw [hto] at h
      have hlen : ((p.drop sent).take (min 65536 (p.length - sent))).length
          = min 65536 (p.length - sent) := by
        rw [List.length_take, List.length_drop]; omega
      simp only [IFStream.read, Int.toNat_ofNat, hlen] at h
      split at h
      · simp at h
      · rename_i s1 heq
        obtain ⟨hw1, hi1⟩ := peer_sendAllBytes_wire _ _ _ _ heq
        have hcast : (sent : Int) + ((min 65536 (p.length - sent) : Nat) : Int)
            = ((sent + min 65536 (p.length - sent) : Nat) : Int) := by push_cast; rfl
        rw [hcast] at h
        obtain ⟨hw, hi⟩ := ih s1 _ (by omega) h
        refine ⟨?_, by rw [hi, hi1]⟩
        rw [hw, hw1, Int.toNat_ofNat, List.take_take, Nat.min_self, List.append_assoc,
          take_drop_append_drop]
    · rw [if_neg hlt] at h
      simp only [Prod.mk.injEq, true_and] at h
      subst h
      have : p.length ≤ sent := by omega
      simp [List.drop_eq_nil_of_le this]

/-! ## What `sendFile` puts on the wire -/

theorem hub_sendFile_wire (sock sock' : Socket) (f p : List Byte)
    (hf : f.length < 2147483648) (hp : p.length < 9223372036854775808)
    (h : Sender.sendFile sock f (some p) = (true, sock')) :
    sock'.wire = sock.wire ++ (littleEndian 4 f.length ++ (f ++ (littleEndian 8 p.length
        ++ (littleEndian 4 (fileCrc p) ++ p))))
      ∧ sock'.inbox = sock.inbox := by
  have hcrc : crcScanLoop p.length ⟨p, 0⟩ (p.length : Int) 0 0xFFFFFFFF = fileCrc p := by
    unfold fileCrc
    rw [toInt64_eq_self _ (by omega) (by omega)]
    rfl
  unfold Sender.sendFile at h
  rw [toInt32_eq_self _ (by omega) (by omega)] at h
  split at h
  · rename_i heq
    cases heq
  rename_i heq
  cases heq
  rw [toInt64_eq_self _ (by omega) (by omega)] at h
  dsimp only [IFStream.rewind] at h
  rw [le32_eq, le64_eq, Int.toNat_ofNat, hcrc, le32_eq] at h
  split at h
  · simp at h
  · rename_i s1 h1
    obtain ⟨hw1, hi1⟩ := hub_sendAllBytes_wire _ _ _ _ h1
    split at h
    · simp at h
    · rename_i s2 h2
      obtain ⟨hw2, hi2⟩ := hub_sendAllBytes_wire _ _ _ _ h2
      split at h
      · simp at h
      · rename_i s3 h3
        obtain ⟨hw3, hi3⟩ := hub_sendAllBytes_wire _ _ _ _ h3
        split at h
        · simp at h
        · rename_i s4 h4
          obtain ⟨hw4, hi4⟩ := hub_sendAllBytes_wire _ _ _ _ h4
          obtain ⟨hw5, hi5⟩ := hub_sendPayloadLoop_wire _ s4 sock' p 0 (by omega) h
          refine ⟨?_, by rw [hi5, hi4, hi3, hi2, hi1]⟩
          have t1 : (littleEndian 4 f.length).take (4 : Int).toNat = littleEndian 4 f.length :=
            List.take_of_length_le (by rw [littleEndian_length]; decide)
          have t2 : f.take (f.length : Int).toNat = f :=
            List.take_of_length_le (by simp)
          have t3 : (littleEndian 8 p.length).take (8 : Int).toNat = littleEndian 8 p.length :=
            List.take_of_length_le (by rw [littleEndian_length]; decide)
          have t4 : (littleEndian 4 (fileCrc p)).take (4 : Int).toNat
              = littleEndian 4 (fileCrc p) :=
            List.take_of_length_le (by rw [littleEndian_length]; decide)
          rw [hw5, hw4, hw3, hw2, hw1, t1, t2, t3, t4, List.drop_zero]
          simp only [List.append_assoc]

theorem peer_sendFile_wire (sock sock' : Socket) (f p : List Byte)
    (hf : f.length < 2147483648) (hp : p.length < 9223372036854775808)
    (h : Listener.sendFile sock f (some p) = (true, sock')) :
    sock'.wire = sock.wire ++ (littleEndian 4 f.length ++ (f ++ (littleEndian 8 p.length ++ p)))
      ∧ sock'.inbox = sock.inbox := by
  unfold Listener.sendFile at h
  rw [toInt32_eq_self _ (by omega) (by omega)] at h
  split at h
  · rename_i heq
    cases heq
  rename_i heq
  cases heq
  rw [toInt64_eq_self _ (by omega) (by omega)] at h
  dsimp only at h
  rw [le32_eq, le64_eq, Int.toNat_ofNat] at h
  split at h
  · simp at h
  · rename_i s1 h1
    obtain ⟨hw1, hi1⟩ := peer_sendAllBytes_wire _ _ _ _ h1
    split at h
    · simp at h
    · rename_i s2 h2
      obtain ⟨hw2, hi2⟩ := peer_sendAllBytes_wire _ _ _ _ h2
      split at h
      · simp at h
      · rename_i s3 h3
        obtain ⟨hw3, hi3⟩ := peer_sendAllBytes_wire _ _ _ _ h3
        obtain ⟨hw5, hi5⟩ := peer_sendPayloadLoop_wire _ s3 sock' p 0 (by omega) h
        refine ⟨?_, by rw [hi5, hi3, hi2, hi1]⟩
        have t1 : (littleEndian 4 f.length).take (4 : Int).toNat = littleEndian 4 f.length :=
          List.take_of_length_le (by rw [littleEndian_length]; decide)
        have t2 : f.take (f.length : Int).toNat = f :=
          List.take_of_length_le (by simp)
        have t3 : (littleEndian 8 p.length).take (8 : Int).toNat = littleEndian 8 p.length :=
          List.take_of_length_le (by rw [littleEndian_length]; decide)
        rw [hw5, hw3, hw2, hw1, t1, t2, t3, List.drop_zero]
        simp only [List.append_assoc]

/-! ## A network that accepts every byte lets `sendFile` finish -/

theorem hub_sendAllBytesLoop_ok (fuel : Nat) (sock : Socket) (buf : List Byte)
    (len total : Int) (hw : sock.Willing) (h0 : 0 ≤ total)
    (hroom : (len - total).toNat ≤ sock.sendScript.length)
    (hfuel : sock.sendScript.length < fuel) :
    ∃ sock', Sender.sendAllBytesLoop fuel sock buf len total = (true, sock')
      ∧ sock'.Willing
      ∧ sock.sendScript.length ≤ sock'.sendScript.length + (len - total).toNat := by
  induction fuel generalizing sock total with
  | zero => omega
  | succ fuel ih =>
    unfold Sender.sendAllBytesLoop
    by_cases hlt : total < len
    · rw [if_pos hlt]
      obtain ⟨inbox, script, wire⟩ := sock
      cases script with
      | nil => simp at hroom; omega
      | cons o rest =>
        obtain ⟨n, rfl⟩ := hw o (by simp)
        have hw' : (Socket.mk inbox rest (wire ++ List.take (min (n + 1) (len - total).toNat)
            (List.drop total.toNat buf))).Willing := fun o ho => hw o (by simp [ho])
        simp only [send, SOCKET_ERROR]
        have hne : ¬ (((min (n + 1) (len - total).toNat : Nat) : Int) = -1) := by omega
        have hk : ¬ (((min (n + 1) (len - total).toNat : Nat) : Int) = 0) := by omega
        rw [if_neg hne, if_neg hk]
        simp only [List.length_cons] at hroom hfuel
        obtain ⟨s', h1, h2, h3⟩ := ih _ (total + ((min (n + 1) (len - total).toNat : Nat) : Int))
          hw' (by omega) (by simp only []; omega) (by simp only []; omega)
        refine ⟨s', h1, h2, ?_⟩
        simp only [List.length_cons] at h3 ⊢
        omega
    · rw [if_neg hlt]
      exact ⟨sock, rfl, hw, by omega⟩

theorem hub_sendAllBytes_ok (sock : Socket) (buf : List Byte) (len : Int)
    (hw : sock.Willing) (hroom : len.toNat ≤ sock.sendScript.length) :
    ∃ sock', Sender.sendAllBytes sock buf len = (true, sock')
      ∧ sock'.Willing ∧ sock.sendScript.length ≤ sock'.sendScript.length + len.toNat := by
  have := hub_sendAllBytesLoop_ok (sock.sendScript.length + 1) sock buf len 0 hw (by omega)
    (by simpa using hroom) (by omega)
  simpa [Sender.sendAllBytes] using this

theorem peer_sendAllBytesLoop_ok (fuel : Nat) (sock : Socket) (buf : List Byte)
    (len total : Int) (hw : sock.Willing) (h0 : 0 ≤ total)
    (hroom : (len - total).toNat ≤ sock.sendScript.length)
    (hfuel : sock.sendScript.length < fuel) :
    ∃ sock', Listener.sendAllBytesLoop fuel sock buf len total = (true, sock')
      ∧ sock'.Willing
      ∧ sock.sendScript.length ≤ sock'.sendScript.length + (len - total).toNat := by
  induction fuel generalizing sock total with
  | zero => omega
  | succ fuel ih =>
    unfold Listener.sendAllBytesLoop
    by_cases hlt : total < len
    · rw [if_pos hlt]
      obtain ⟨inbox, script, wire⟩ := sock
      cases script with
      | nil => simp at hroom; omega
      | cons o rest =>
        obtain ⟨n, rfl⟩ := hw o (by simp)
        have hw' : (Socket.mk inbox rest (wire ++ List.take (min (n + 1) (len - total).toNat)
            (List.drop total.toNat buf))).Willing := fun o ho => hw o (by simp [ho])
        simp only [send, SOCKET_ERROR]
        have hne : ¬ (((min (n + 1) (len - total).toNat : Nat) : Int) = -1) := by omega
        rw [if_neg hne]
        simp only [List.length_cons] at hroom hfuel
        obtain ⟨s', h1, h2, h3⟩ := ih _ (total + ((min (n + 1) (len - total).toNat : Nat) : Int))
          hw' (by omega) (by simp only []; omega) (by simp only []; omega)
        refine ⟨s', h1, h2, ?_⟩
        simp only [List.length_cons] at h3 ⊢
        omega
    · rw [if_neg hlt]
      exact ⟨sock, rfl, hw, by omega⟩

theorem peer_sendAllBytes_ok (sock : Socket) (buf : List Byte) (len : Int)
    (hw : sock.Willing) (hroom : len.toNat ≤ sock.sendScript.length) :
    ∃ sock', Listener.sendAllBytes sock buf len = (true, sock')
      ∧ sock'.Willing ∧ sock.sendScript.length ≤ sock'.sendScript.length + len.toNat := by
  have := peer_sendAllBytesLoop_ok (sock.sendScript.length + 1) sock buf len 0 hw (by omega)
    (by simpa using hroom) (by omega)
  simpa [Listener.sendAllBytes] using this

theorem hub_sendPayloadLoop_ok (fuel : Nat) (sock : Socket) (p : List Byte) (sent : Nat)
    (hw : sock.Willing) (hs : sent ≤ p.length)
    (hroom : p.length - sent ≤ sock.sendScript.length) (hfuel : p.length - sent ≤ fuel) :
    ∃ sock', Sender.sendPayloadLoop fuel sock ⟨p, sent⟩ p.length sent = (true, sock') := by
  induction fuel generalizing sock sent with
  | zero =>
    have hn : ¬ ((sent : Int) < p.length) := by omega
    exact ⟨sock, by simp [Sender.sendPayloadLoop, hn]⟩
  | succ fuel ih =>
    unfold Sender.sendPayloadLoop
    by_cases hlt : (sent : Int) < p.length
    · rw [if_pos hlt]
      have hto : (if (p.length : Int) - sent > CHUNK_SIZE then CHUNK_SIZE
          else toInt32 ((p.length : Int) - sent))
          = ((min 65536 (p.length - sent) : Nat) : Int) := by
        rw [chunk_size_eq _ (by omega)]; omega
      rw [hto]
      have hlen : ((p.drop sent).take (min 65536 (p.length - sent))).length
          = min 65536 (p.length - sent) := by
        rw [List.length_take, List.length_drop]; omega
      simp only [IFStream.read, Int.toNat_ofNat, hlen]
      obtain ⟨s1, h1, hw1, hl1⟩ := hub_sendAllBytes_ok sock
        ((p.drop sent).take (min 65536 (p.length - sent)))
        ((min 65536 (p.length - sent) : Nat) : Int) hw (by omega)
      rw [h1]
      have hcast : (sent : Int) + ((min 65536 (p.length - sent) : Nat) : Int)
          = ((sent + min 65536 (p.length - sent) : Nat) : Int) := by push_cast; rfl
      simp only [hcast]
      exact ih s1 _ hw1 (by omega) (by omega) (by omega)
    · rw [if_neg hlt]
      exact ⟨sock, rfl⟩

theorem peer_sendPayloadLoop_ok (fuel : Nat) (sock : Socket) (p : List Byte) (sent : Nat)
    (hw : sock.Willing) (hs : sent ≤ p.length)
    (hroom : p.length - sent ≤ sock.sendScript.length) (hfuel : p.length - sent ≤ fuel) :
    ∃ sock', Listener.sendPayloadLoop fuel sock ⟨p, sent⟩ p.length sent = (true, sock') := by
  induction fuel generalizing sock sent with
  | zero =>
    have hn : ¬ ((sent : Int) < p.length) := by omega
    exact ⟨sock, by simp [Listener.sendPayloadLoop, hn]⟩
  | succ fuel ih =>
    unfold Listener.sendPayloadLoop
    by_cases hlt : (sent : Int) < p.length
    · rw [if_pos hlt]
      have hto : (if (p.length : Int) - sent > CHUNK_SIZE then CHUNK_SIZE
          else toInt32 ((p.length : Int) - sent))
          = ((min 65536 (p.length - sent) : Nat) : Int) := by
        rw [chunk_size_eq _ (by omega)]; omega
      rw [hto]
      have hlen : ((p.drop sent).take (min 65536 (p.length - sent))).length
          = min 65536 (p.length - sent) := by
        rw [List.length_take, List.length_drop]; omega
      simp only [IFStream.read, Int.toNat_ofNat, hlen]
      obtain ⟨s1, h1, hw1, hl1⟩ := peer_sendAllBytes_ok sock
        ((p.drop sent).take (min 65536 (p.length - sent)))
        ((min 65536 (p.length - sent) : Nat) : Int) hw (by omega)
      rw [h1]
      have hcast : (sent : Int) + ((min 65536 (p.length - sent) : Nat) : Int)
          = ((sent + min 65536 (p.length - sent) : Nat) : Int) := by push_cast; rfl
      simp only [hcast]
      exact ih s1 _ hw1 (by omega) (by omega) (by omega)
    · rw [if_neg hlt]
      exact ⟨sock, rfl⟩

theorem hub_sendFile_ok (sock : Socket) (f p : List Byte)
    (hf : f.length < 2147483648) (hp : p.length < 9223372036854775808)
    (hw : sock.Willing) (hroom : 16 + f.length + p.length ≤ sock.sendScript.length) :
    ∃ sock', Sender.sendFile sock f (some p) = (true, sock') := by
  unfold Sender.sendFile
  rw [toInt32_eq_self _ (by omega) (by omega)]
  split
  · rename_i heq
    cases heq
  rename_i heq
  cases heq
  rw [toInt64_eq_self _ (by omega) (by omega)]
  dsimp only [IFStream.rewind]
  rw [Int.toNat_ofNat]
  obtain ⟨s1, h1, hw1, hl1⟩ := hub_sendAllBytes_ok sock
    [byteAt (f.length : Int) 0, byteAt (f.length : Int) 1, byteAt (f.length : Int) 2,
      byteAt (f.length : Int) 3] 4 hw (by simp; omega)
  rw [h1]
  dsimp only
  obtain ⟨s2, h2, hw2, hl2⟩ := hub_sendAllBytes_ok s1 f (f.length : Int) hw1
    (by simp at hl1 ⊢; omega)
  rw [h2]
  dsimp only
  obtain ⟨s3, h3, hw3, hl3⟩ := hub_sendAllBytes_ok s2
    ((List.range 8).map (byteAt (p.length : Int))) 8 hw2 (by simp at hl1 hl2 ⊢; omega)
  rw [h3]
  dsimp only
  generalize crcScanLoop p.length ⟨p, 0⟩ (p.length : Int) 0 4294967295 = crc
  obtain ⟨s4, h4, hw4, hl4⟩ := hub_sendAllBytes_ok s3
    [byteAt (crc : Int) 0, byteAt (crc : Int) 1, byteAt (crc : Int) 2, byteAt (crc : Int) 3]
    4 hw3 (by simp at hl1 hl2 hl3 ⊢; omega)
  rw [h4]
  dsimp only
  exact hub_sendPayloadLoop_ok _ s4 p 0 hw4 (by omega)
    (by simp at hl1 hl2 hl3 hl4 ⊢; omega) (by omega)

theorem peer_sendFile_ok (sock : Socket) (f p : List Byte)
    (hf : f.length < 2147483648) (hp : p.length < 9223372036854775808)
    (hw : sock.Willing) (hroom : 12 + f.length + p.length ≤ sock.sendScript.length) :
    ∃ sock', Listener.sendFile sock f (some p) = (true, sock') := by
  unfold Listener.sendFile
  rw [toInt32_eq_self _ (by omega) (by omega)]
  split
  · rename_i heq
    cases heq
  rename_i heq
  cases heq
  rw [toInt64_eq_self _ (by omega) (by omega)]
  dsimp only
  rw [Int.toNat_ofNat]
  obtain ⟨s1, h1, hw1, hl1⟩ := peer_sendAllBytes_ok sock
    [byteAt (f.length : Int) 0, byteAt (f.length : Int) 1, byteAt (f.length : Int) 2,
      byteAt (f.length : Int) 3] 4 hw (by simp; omega)
  rw [h1]
  dsimp only
  obtain ⟨s2, h2, hw2, hl2⟩ := peer_sendAllBytes_ok s1 f (f.length : Int) hw1
    (by simp at hl1 ⊢; omega)
  rw [h2]
  dsimp only
  obtain ⟨s3, h3, hw3, hl3⟩ := peer_sendAllBytes_ok s2
    ((List.range 8).map (byteAt (p.length : Int))) 8 hw2 (by simp at hl1 hl2 ⊢; omega)
  rw [h3]
  dsimp only
  exact peer_sendPayloadLoop_ok _ s3 p 0 hw3 (by omega)
    (by simp at hl1 hl2 hl3 ⊢; omega) (by omega)

/-! ## The two copies of the receiving code agree -/

theorem peer_recvExactBytesLoop_eq (fuel : Nat) (sock : Socket) (len total : Int)
    (buf : List Byte) :
    Listener.recvExactBytesLoop fuel sock len total buf
      = Sender.recvExactBytesLoop fuel sock len total buf := by
  induction fuel generalizing sock total buf with
  | zero => rfl
  | succ fuel ih =>
    unfold Listener.recvExactBytesLoop Sender.recvExactBytesLoop
    simp only [ih]

theorem peer_recvExactBytes_eq (sock : Socket) (len : Int) :
    Listener.recvExactBytes sock len = Sender.recvExactBytes sock len := by
  unfold Listener.recvExactBytes Sender.recvExactBytes
  exact peer_recvExactBytesLoop_eq _ _ _ _ _

theorem peer_recvPayloadLoop_eq (fuel : Nat) (sock : Socket) (fileSize recvd : Int)
    (out : List Byte) :
    Listener.recvPayloadLoop fuel sock fileSize recvd out
      = Sender.recvPayloadLoop fuel sock fileSize recvd out := by
  induction fuel generalizing sock recvd out with
  | zero => rfl
  | succ fuel ih =>
    unfold Listener.recvPayloadLoop Sender.recvPayloadLoop
    simp only [ih, peer_recvExactBytes_eq]

theorem peer_decodeFnLen_eq (lenBuf : List Byte) :
    Listener.decodeFnLen lenBuf = Sender.decodeFnLen lenBuf := rfl

theorem peer_decodeFileSize_eq (sizeBuf : List Byte) :
    Listener.decodeFileSize sizeBuf = Sender.decodeFileSize sizeBuf := rfl

theorem peer_outFilename_eq (filename : List Byte) :
    Listener.outFilename filename = Sender.outFilename filename := rfl

theorem peer_receiveFile_eq (canCreate : List Byte → Bool) (sock : Socket) :
    Listener.receiveFile canCreate sock = Sender.receiveFile canCreate sock := by
  have e1 : Listener.recvExactBytes = Sender.recvExactBytes :=
    funext fun s => funext fun n => peer_recvExactBytes_eq s n
  have e2 : Listener.recvPayloadLoop = Sender.recvPayloadLoop :=
    funext fun k => funext fun s => funext fun a => funext fun b => funext fun o =>
      peer_recvPayloadLoop_eq k s a b o
  have e3 : Listener.decodeFnLen = Sender.decodeFnLen := rfl
  have e4 : Listener.decodeFileSize = Sender.decodeFileSize := rfl
  have e5 : Listener.outFilename = Sender.outFilename := rfl
  unfold Listener.receiveFile Sender.receiveFile
  rw [e1, e2, e3, e4, e5]

/-! ## Output naming -/

theorem find_last_of_eq_none (l : List Byte) (c : Byte) (h : c ∉ l) :
    find_last_of l c = none := by
  induction l with
  | nil => rfl
  | cons b rest ih =>
    have hb : ¬ b = c := fun e => h (by simp [e])
    have hr : c ∉ rest := fun e => h (by simp [e])
    simp [find_last_of, ih hr, hb]

theorem find_last_of_append (pre post : List Byte) (c : Byte) (h : c ∉ post) :
    find_last_of (pre ++ c :: post) c = some pre.length := by
  induction pre with
  | nil => simp [find_last_of, find_last_of_eq_none post c h]
  | cons b rest ih => simp [find_last_of, ih]

theorem outFilename_with_dot (pre post : List Byte) (h : UInt8.ofNat 46 ∉ post) :
    Sender.outFilename (pre ++ UInt8.ofNat 46 :: post)
      = pre ++ bytesOf "_copy" ++ UInt8.ofNat 46 :: post := by
  unfold Sender.outFilename
  rw [find_last_of_append pre post _ h]
  simp

theorem outFilename_without_dot (f : List Byte) (h : UInt8.ofNat 46 ∉ f) :
    Sender.outFilename f = f ++ bytesOf "_copy" := by
  unfold Sender.outFilename
  rw [find_last_of_eq_none f _ h]

theorem hub_sendPayloadLoop_chunks (fuel : Nat) (p : List Byte) (sent : Nat)
    (hs : sent ≤ p.length) (hfuel : p.length - sent ≤ fuel) :
    ∃ chunks : List (List Byte), (∀ c ∈ chunks, 0 < c.length ∧ c.length ≤ 65536)
      ∧ chunks.flatten = p.drop sent
      ∧ ∀ sock, Sender.sendPayloadLoop fuel sock ⟨p, sent⟩ p.length sent
          = Sender.sendChunks sock chunks := by
  induction fuel generalizing sent with
  | zero =>
    have hn : ¬ ((sent : Int) < p.length) := by omega
    have : p.length ≤ sent := by omega
    exact ⟨[], by simp, by simp [List.drop_eq_nil_of_le this],
      fun sock => by simp [Sender.sendPayloadLoop, Sender.sendChunks, hn]⟩
  | succ fuel ih =>
    by_cases hlt : (sent : Int) < p.length
    · obtain ⟨chunks, hc1, hc2, hc3⟩ := ih (sent + min 65536 (p.length - sent)) (by omega)
        (by omega)
      have hlen : ((p.drop sent).take (min 65536 (p.length - sent))).length
          = min 65536 (p.length - sent) := by
        rw [List.length_take, List.length_drop]; omega
      refine ⟨(p.drop sent).take (min 65536 (p.length - sent)) :: chunks, ?_, ?_, ?_⟩
      · intro c hc
        simp only [List.mem_cons] at hc
        rcases hc with rfl | hc
        · rw [hlen]; omega
        · exact hc1 c hc
      · rw [List.flatten_cons, hc2, take_drop_append_drop]
      · intro sock
        unfold Sender.sendPayloadLoop
        rw [if_pos hlt]
        have hto : (if (p.length : Int) - sent > CHUNK_SIZE then CHUNK_SIZE
            else toInt32 ((p.length : Int) - sent))
            = ((min 65536 (p.length - sent) : Nat) : Int) := by
          rw [chunk_size_eq _ (by omega)]; omega
        rw [hto]
        have hcast : (sent : Int) + ((min 65536 (p.length - sent) : Nat) : Int)
            = ((sent + min 65536 (p.length - sent) : Nat) : Int) := by push_cast; rfl
        simp only [IFStream.read, Int.toNat_ofNat, hlen, hcast, hc3, Sender.sendChunks]
    · have : p.length ≤ sent := by omega
      exact ⟨[], by simp, by simp [List.drop_eq_nil_of_le this],
        fun sock => by simp [Sender.sendPayloadLoop, Sender.sendChunks, hlt]⟩

theorem sum_length_eq_length_flatten (chunks : List (List Byte)) :
    (chunks.map List.length).sum = chunks.flatten.length := by
  induction chunks with
  | nil => rfl
  | cons c rest ih =>
    rw [List.map_cons, List.sum_cons, List.flatten_cons, List.length_append, ih]

/-! ## Range of the checksum -/

theorem crcTableStep_lt (c : Nat) (h : c < 2 ^ 32) : crcTableStep c < 2 ^ 32 := by
  have hs : c >>> 1 < 2 ^ 32 := by
    rw [Nat.shiftRight_eq_div_pow]
    exact lt_of_le_of_lt (Nat.div_le_self _ _) h
  unfold crcTableStep
  split
  · exact Nat.xor_lt_two_pow (by norm_num) hs
  · exact hs

theorem crc_table_lt (i : Nat) (h : i < 2 ^ 32) : crc_table i < 2 ^ 32 := by
  unfold crc_table
  simp only [Function.iterate_succ, Function.iterate_zero, Function.comp_apply, id_eq]
  exact crcTableStep_lt _ (crcTableStep_lt _ (crcTableStep_lt _ (crcTableStep_lt _
    (crcTableStep_lt _ (crcTableStep_lt _ (crcTableStep_lt _ (crcTableStep_lt _ h)))))))

theorem crcByte_lt (c : Nat) (b : Byte) (h : c < 2 ^ 32) : crcByte c b < 2 ^ 32 := by
  unfold crcByte
  apply Nat.xor_lt_two_pow
  · apply crc_table_lt
    rw [and_ff]
    exact lt_trans (Nat.mod_lt _ (by norm_num)) (by norm_num)
  · rw [Nat.shiftRight_eq_div_pow]
    exact lt_of_le_of_lt (Nat.div_le_self _ _) h

theorem foldl_crcByte_lt (buf : List Byte) (c : Nat) (h : c < 2 ^ 32) :
    buf.foldl crcByte c < 2 ^ 32 := by
  induction buf generalizing c with
  | nil => exact h
  | cons b rest ih => exact ih _ (crcByte_lt c b h)

theorem crc32_update_lt (c : Nat) (buf : List Byte) (h : c < 2 ^ 32) :
    crc32_update c buf < 2 ^ 32 := by
  unfold crc32_update
  exact Nat.xor_lt_two_pow (foldl_crcByte_lt _ _ (Nat.xor_lt_two_pow h (by norm_num)))
    (by norm_num)

/-! ## Hub to peer -/

/-- What the peer's `receiveFile` does with a frame written by the hub's
`sendFile`: it takes the four checksum bytes for the start of the payload. -/
theorem peer_receiveFile_hub_frame (canCreate : List Byte → Bool)
    (sockS sockS' sockR : Socket) (f p extra : List Byte)
    (hf : f.length < 2147483648) (hp : p.length < 9223372036854775808)
    (hfresh : sockS.wire = [])
    (hsend : Sender.sendFile sockS f (some p) = (true, sockS'))
    (hcreate : canCreate (c_str (Listener.outFilename f)) = true)
    (hlive : sockR.Live) (hdeliver : sockR.pending = sockS'.wire ++ extra) :
    ∃ sockR', Listener.receiveFile canCreate sockR
      = ⟨Outcome.success, sockR', some (f, (p.length : Int)),
          some (c_str (Listener.outFilename f), (littleEndian 4 (fileCrc p) ++ p).take p.length)⟩ := by
  obtain ⟨hw, _⟩ := hub_sendFile_wire sockS sockS' f p hf hp hsend
  rw [hfresh, List.nil_append] at hw
  rw [peer_receiveFile_eq]
  have hpend : sockR.pending = littleEndian 4 f.length ++ (f ++ (littleEndian 8 p.length
      ++ ((littleEndian 4 (fileCrc p) ++ p) ++ extra))) := by
    rw [hdeliver, hw]; simp only [List.append_assoc]
  have hN := decodeFileSize_littleEndian p.length hp
  have hframe := receiveFile_frame canCreate sockR _ f _ _ hlive hpend
    (littleEndian_length 4 _) (decodeFnLen_littleEndian f.length hf)
    (littleEndian_length 8 _) hcreate
  rw [hN] at hframe
  obtain ⟨sockR', h1, _⟩ := hframe.1 (by
    simp only [List.length_append, littleEndian_length]; push_cast; omega)
  refine ⟨sockR', ?_⟩
  rw [h1, Int.toNat_ofNat, List.take_append_of_le_length (by
    simp only [List.length_append, littleEndian_length]; omega)]
  rfl

set_option maxRecDepth 1000000 in
/-- C1 (fails on the code): the hub sends `data.txt` holding the 12 bytes
`hello world\n` over a connection that accepts and delivers every byte. The
peer's `receiveFile` returns `true` and names the output `data_copy.txt`, but
the 12 bytes it writes are the 4 checksum bytes followed by `hello wo`, not
the source; the last 4 payload bytes stay unread on the connection. -/
theorem hub_to_peer_data_txt_not_identical :
    (Sender.sendFile ⟨[], List.replicate 5 (SendOutcome.accept 65536), []⟩
        (bytesOf "data.txt") (some (bytesOf "hello world\n"))).1 = true
    ∧ Listener.receiveFile (fun _ => true)
        ⟨[(Sender.sendFile ⟨[], List.replicate 5 (SendOutcome.accept 65536), []⟩
          (bytesOf "data.txt") (some (bytesOf "hello world\n"))).2.wire], [], []⟩
      = ⟨Outcome.success, ⟨[bytesOf "rld\n"], [], []⟩, some (bytesOf "data.txt", 12),
          some (bytesOf "data_copy.txt", [189, 2, 34, 43] ++ bytesOf "hello wo")⟩
    ∧ [189, 2, 34, 43] ++ bytesOf "hello wo" ≠ bytesOf "hello world\n" := by
  decide

/-! ## Peer to hub -/

set_option maxRecDepth 1000000 in
/-- C2 as stated fails: when the destination cannot be created, the hub's
`receiveFile` returns `false` on a frame the peer's `sendFile` wrote in full
(`f = "a.txt"`, `p = "hi"`), and creates no file. -/
theorem peer_to_hub_destination_refused :
    (Listener.sendFile ⟨[], List.replicate 20 (SendOutcome.accept 4), []⟩ (bytesOf "a.txt")
        (some (bytesOf "hi"))).1 = true
    ∧ (Sender.receiveFile (fun _ => false)
        ⟨[(Listener.sendFile ⟨[], List.replicate 20 (SendOutcome.accept 4), []⟩
          (bytesOf "a.txt") (some (bytesOf "hi"))).2.wire], [], []⟩).outcome = Outcome.failure
    ∧ (Sender.receiveFile (fun _ => false)
        ⟨[(Listener.sendFile ⟨[], List.replicate 20 (SendOutcome.accept 4), []⟩
          (bytesOf "a.txt") (some (bytesOf "hi"))).2.wire], [], []⟩).outfile = none := by
  decide

/-- C2 as amended: a frame written by the peer's `sendFile` (listener.cpp) for `(f, p)`,
`|f| < 2^31`, `|p| < 2^63`, and delivered to the hub in any split into pieces,
makes the hub's `receiveFile` (sender.cpp), when the destination file can be
created, return `true`, announce the name
`f` and the size `|p|`, write exactly `p` to the destination, and leave every
byte after the frame unread. -/
theorem peer_to_hub_round_trip (canCreate : List Byte → Bool)
    (sockS sockS' sockR : Socket) (f p extra : List Byte)
    (hf : f.length < 2147483648) (hp : p.length < 9223372036854775808)
    (hfresh : sockS.wire = [])
    (hsend : Listener.sendFile sockS f (some p) = (true, sockS'))
    (hcreate : canCreate (c_str (Sender.outFilename f)) = true)
    (hlive : sockR.Live) (hdeliver : sockR.pending = sockS'.wire ++ extra) :
    ∃ sockR', Sender.receiveFile canCreate sockR
        = ⟨Outcome.success, sockR', some (f, (p.length : Int)),
            some (c_str (Sender.outFilename f), p)⟩
      ∧ sockR'.pending = extra := by
  obtain ⟨hw, _⟩ := peer_sendFile_wire sockS sockS' f p hf hp hsend
  rw [hfresh, List.nil_append] at hw
  have hpend : sockR.pending = littleEndian 4 f.length ++ (f ++ (littleEndian 8 p.length
      ++ (p ++ extra))) := by
    rw [hdeliver, hw]; simp only [List.append_assoc]
  have hN := decodeFileSize_littleEndian p.length hp
  have hframe := receiveFile_frame canCreate sockR _ f _ _ hlive hpend
    (littleEndian_length 4 _) (decodeFnLen_littleEndian f.length hf)
    (littleEndian_length 8 _) hcreate
  rw [hN] at hframe
  obtain ⟨sockR', h1, _, h3, _⟩ := hframe.1 (by
    simp only [List.length_append]; push_cast; omega)
  refine ⟨sockR', ?_, ?_⟩
  · rw [h1, Int.toNat_ofNat, List.take_left]
  · rw [h3, Int.toNat_ofNat, List.drop_left]

set_option maxRecDepth 1000000 in
/-- C2 as amended, at `f = "a.txt"`, `p = "hi"`, the frame arriving in two
pieces and followed by one more byte. -/
theorem peer_to_hub_round_trip_witness :
    ∃ sockR', Sender.receiveFile (fun _ => true)
        ⟨[[5, 0, 0], [0, 97, 46, 116, 120, 116, 2, 0, 0, 0, 0, 0, 0, 0, 104, 105, 33]], [], []⟩
        = ⟨Outcome.success, sockR', some (bytesOf "a.txt", ((bytesOf "hi").length : Int)),
            some (c_str (Sender.outFilename (bytesOf "a.txt")), bytesOf "hi")⟩
      ∧ sockR'.pending = [33] :=
  peer_to_hub_round_trip (fun _ => true)
    ⟨[], List.replicate 20 (SendOutcome.accept 4), []⟩
    (Listener.sendFile ⟨[], List.replicate 20 (SendOutcome.accept 4), []⟩ (bytesOf "a.txt")
      (some (bytesOf "hi"))).2
    ⟨[[5, 0, 0], [0, 97, 46, 116, 120, 116, 2, 0, 0, 0, 0, 0, 0, 0, 104, 105, 33]], [], []⟩
    (bytesOf "a.txt") (bytesOf "hi") [33]
    (by decide) (by decide) rfl (by decide) rfl (by decide) (by decide)

/-! ## Checksum -/

set_option maxRecDepth 1000000 in
/-- C3 (fails on the code): the checksum `sendFile` emits is not the standard
CRC-32. For the empty payload it is `0xFFFFFFFF`, not `0`; for `123456789` it
is `0xD202D277`, not `0xCBF43926`. The reference CRC-32 gives `0` and
`0xCBF43926`, and so does `crc32_update` when the running value starts at 0:
the initial value `0xFFFFFFFF` of `runningCrc` is inverted once more inside
`crc32_update`. -/
theorem fileCrc_not_standard_crc32 :
    fileCrc [] = 0xFFFFFFFF ∧ crc32Reference [] = 0
    ∧ fileCrc (bytesOf "123456789") = 0xD202D277
    ∧ crc32Reference (bytesOf "123456789") = 0xCBF43926
    ∧ crc32_update 0 (bytesOf "123456789") = 0xCBF43926
    ∧ fileCrc (bytesOf "123456789") ≠ crc32Reference (bytesOf "123456789") := by
  decide

/-- C4: `crc32_update` does not depend on how the bytes are cut into chunks.
For a 32-bit running value `c`, updating with `a` and then `b` equals updating
with `a ++ b` (and the value stays 32-bit); folding over any list of chunks
equals one update over their concatenation; so the 64 KiB scan of `sendFile`
gives the single update over the whole file, as any other split does. -/
theorem crc32_update_chunk_independent (c : Nat) (a b p : List Byte)
    (chunks : List (List Byte)) (hc : c < 4294967296)
    (hp : p.length < 9223372036854775808) (hsplit : chunks.flatten = p) :
    crc32_update (crc32_update c a) b = crc32_update c (a ++ b)
    ∧ crc32_update c a < 4294967296
    ∧ chunks.foldl crc32_update c = crc32_update c p
    ∧ fileCrc p = crc32_update 0xFFFFFFFF p
    ∧ chunks.foldl crc32_update 0xFFFFFFFF = fileCrc p := by
  refine ⟨crc32_update_append c a b, crc32_update_lt c a hc, ?_, fileCrc_eq p (by omega), ?_⟩
  · rw [crc32_update_chunks, hsplit]
  · rw [crc32_update_chunks, hsplit, fileCrc_eq p (by omega)]

/-- C4 at `c = 0xFFFFFFFF` and the file `hello world\n` cut as `hello`,
` world\n`. -/
theorem crc32_update_chunk_independent_witness :
    crc32_update (crc32_update 0xFFFFFFFF (bytesOf "hello")) (bytesOf " world\n")
      = crc32_update 0xFFFFFFFF (bytesOf "hello" ++ bytesOf " world\n")
    ∧ crc32_update 0xFFFFFFFF (bytesOf "hello") < 4294967296
    ∧ [bytesOf "hello", bytesOf " world\n"].foldl crc32_update 0xFFFFFFFF
      = crc32_update 0xFFFFFFFF (bytesOf "hello world\n")
    ∧ fileCrc (bytesOf "hello world\n") = crc32_update 0xFFFFFFFF (bytesOf "hello world\n")
    ∧ [bytesOf "hello", bytesOf " world\n"].foldl crc32_update 0xFFFFFFFF
      = fileCrc (bytesOf "hello world\n") :=
  crc32_update_chunk_independent 0xFFFFFFFF (bytesOf "hello") (bytesOf " world\n")
    (bytesOf "hello world\n") [bytesOf "hello", bytesOf " world\n"]
    (by decide) (by decide) (by decide)

/-! ## Wire layout of the hub's encoder -/

/-- C5: when no socket write fails (`sendFile` returns `true`), the bytes the
hub's `sendFile` adds to the connection for a name `f` (`|f| < 2^31`) and a
file `p` (`|p| < 2^63`) are the 4-byte little-endian `|f|`, `f`, the 8-byte
little-endian `|p|`, the 4-byte little-endian checksum and `p`, in this order
and nothing else, `16 + |f| + |p|` bytes in all. The payload phase is a
sequence of `sendAllBytes` calls on consecutive chunks of `p`, each of 1 to
65536 bytes, whose lengths sum to `|p|`. -/
theorem sendFile_wire_layout (sock sock' : Socket) (f p : List Byte)
    (hf : f.length < 2147483648) (hp : p.length < 9223372036854775808)
    (hsend : Sender.sendFile sock f (some p) = (true, sock')) :
    sock'.wire = sock.wire ++ (littleEndian 4 f.length ++ (f ++ (littleEndian 8 p.length
        ++ (littleEndian 4 (fileCrc p) ++ p))))
    ∧ sock'.wire.length = sock.wire.length + (16 + f.length + p.length)
    ∧ littleEndianValue (littleEndian 4 f.length) = f.length
    ∧ littleEndianValue (littleEndian 8 p.length) = p.length
    ∧ littleEndianValue (littleEndian 4 (fileCrc p)) = fileCrc p
    ∧ ∃ chunks : List (List Byte), (∀ c ∈ chunks, 0 < c.length ∧ c.length ≤ 65536)
        ∧ chunks.flatten = p ∧ (chunks.map List.length).sum = p.length
        ∧ ∀ s, Sender.sendPayloadLoop p.length s ⟨p, 0⟩ p.length 0
            = Sender.sendChunks s chunks := by
  obtain ⟨hw, _⟩ := hub_sendFile_wire sock sock' f p hf hp hsend
  have hcrc : fileCrc p < 4294967296 := by
    rw [fileCrc_eq p (by omega)]
    exact crc32_update_lt _ _ (by norm_num)
  refine ⟨hw, ?_, ?_, ?_, ?_, ?_⟩
  · rw [hw]
    simp only [List.length_append, littleEndian_length]
    omega
  · rw [littleEndianValue_littleEndian]
    exact Nat.mod_eq_of_lt (by norm_num; omega)
  · rw [littleEndianValue_littleEndian]
    exact Nat.mod_eq_of_lt (by norm_num; omega)
  · rw [littleEndianValue_littleEndian]
    exact Nat.mod_eq_of_lt (by norm_num; omega)
  · obtain ⟨chunks, h1, h2, h3⟩ := hub_sendPayloadLoop_chunks p.length p 0 (by omega)
      (by omega)
    rw [List.drop_zero] at h2
    exact ⟨chunks, h1, h2, by rw [sum_length_eq_length_flatten, h2], h3⟩

set_option maxRecDepth 1000000 in
/-- C5 at `f = "data.txt"`, `p = "hello world\n"`, the network taking at most
5 bytes per `send`. -/
theorem sendFile_wire_layout_witness :
    (Sender.sendFile ⟨[], List.replicate 12 (SendOutcome.accept 5), []⟩ (bytesOf "data.txt")
        (some (bytesOf "hello world\n"))).2.wire
      = [] ++ (littleEndian 4 8 ++ (bytesOf "data.txt" ++ (littleEndian 8 12
        ++ (littleEndian 4 (fileCrc (bytesOf "hello world\n")) ++ bytesOf "hello world\n")))) :=
  (sendFile_wire_layout ⟨[], List.replicate 12 (SendOutcome.accept 5), []⟩
    (Sender.sendFile ⟨[], List.replicate 12 (SendOutcome.accept 5), []⟩ (bytesOf "data.txt")
      (some (bytesOf "hello world\n"))).2
    (bytesOf "data.txt") (bytesOf "hello world\n") (by decide) (by decide) (by decide)).1

/-! ## Destination name -/

/-- C6: the destination name is the received name with `_copy` inserted just
before its last `.`, and the received name followed by `_copy` when it has no
`.`; `data.txt`, `a.tar.gz` and `README` give `data_copy.txt`, `a.tar_copy.gz`
and `README_copy`; listener.cpp and sender.cpp compute the same name. -/
theorem outFilename_rule (f pre post : List Byte) :
    (f = pre ++ UInt8.ofNat 46 :: post → UInt8.ofNat 46 ∉ post →
      Sender.outFilename f = pre ++ bytesOf "_copy" ++ UInt8.ofNat 46 :: post)
    ∧ (UInt8.ofNat 46 ∉ f → Sender.outFilename f = f ++ bytesOf "_copy")
    ∧ Listener.outFilename f = Sender.outFilename f
    ∧ Sender.outFilename (bytesOf "data.txt") = bytesOf "data_copy.txt"
    ∧ Sender.outFilename (bytesOf "a.tar.gz") = bytesOf "a.tar_copy.gz"
    ∧ Sender.outFilename (bytesOf "README") = bytesOf "README_copy"
    ∧ bytesOf "." = [UInt8.ofNat 46] := by
  refine ⟨?_, outFilename_without_dot f, rfl, by decide, by decide, by decide, by decide⟩
  intro hf hpost
  rw [hf]
  exact outFilename_with_dot pre post hpost

/-- C6 at `f = "a.tar.gz"`, cut at its last dot. -/
theorem outFilename_rule_witness :
    Sender.outFilename (bytesOf "a.tar.gz")
      = bytesOf "a.tar" ++ bytesOf "_copy" ++ UInt8.ofNat 46 :: bytesOf "gz" :=
  (outFilename_rule (bytesOf "a.tar.gz") (bytesOf "a.tar") (bytesOf "gz")).1
    (by decide) (by decide)

/-- C8: let `s` be the bytes the connection delivers before closing, in any
split into pieces. With fewer than 4 bytes, or with a length field `L ≥ 0` and
fewer than `12 + L` bytes, `receiveFile` fails and creates no file. With a
complete header, `L ≥ 0`, a size field `N ≥ 0` and a destination that can be
created, `receiveFile` returns `true` exactly when `s` holds at least
`12 + L + N` bytes. -/
theorem receiveFile_no_short_read (canCreate : List Byte → Bool) (sock : Socket)
    (hlive : sock.Live) :
    (sock.pending.length < 4 →
      (Sender.receiveFile canCreate sock).outcome = Outcome.failure
        ∧ (Sender.receiveFile canCreate sock).outfile = none)
    ∧ (4 ≤ sock.pending.length → 0 ≤ Sender.decodeFnLen (sock.pending.take 4) →
        (sock.pending.length : Int) < 12 + Sender.decodeFnLen (sock.pending.take 4) →
      (Sender.receiveFile canCreate sock).outcome = Outcome.failure
        ∧ (Sender.receiveFile canCreate sock).outfile = none)
    ∧ (4 ≤ sock.pending.length → 0 ≤ Sender.decodeFnLen (sock.pending.take 4) →
        12 + Sender.decodeFnLen (sock.pending.take 4) ≤ (sock.pending.length : Int) →
        0 ≤ Sender.decodeFileSize ((sock.pending.drop
          (4 + (Sender.decodeFnLen (sock.pending.take 4)).toNat)).take 8) →
        canCreate (c_str (Sender.outFilename ((sock.pending.drop 4).take
          (Sender.decodeFnLen (sock.pending.take 4)).toNat))) = true →
      ((Sender.receiveFile canCreate sock).outcome = Outcome.success ↔
        12 + Sender.decodeFnLen (sock.pending.take 4)
          + Sender.decodeFileSize ((sock.pending.drop
              (4 + (Sender.decodeFnLen (sock.pending.take 4)).toNat)).take 8)
          ≤ (sock.pending.length : Int))) := by
  refine ⟨receiveFile_short_len canCreate sock hlive,
    receiveFile_short_header canCreate sock hlive, ?_⟩
  intro h4 hL hlen hN hcreate
  generalize hLdef : Sender.decodeFnLen (sock.pending.take 4) = L at hL hlen hN hcreate ⊢
  generalize hNdef : Sender.decodeFileSize ((sock.pending.drop (4 + L.toNat)).take 8) = N
    at hN ⊢
  have hpend : sock.pending = sock.pending.take 4 ++ ((sock.pending.drop 4).take L.toNat
      ++ ((sock.pending.drop (4 + L.toNat)).take 8 ++ sock.pending.drop (4 + L.toNat + 8))) := by
    have e1 : (sock.pending.drop (4 + L.toNat)).take 8 ++ sock.pending.drop (4 + L.toNat + 8)
        = sock.pending.drop (4 + L.toNat) := take_drop_append_drop _ _ _
    have e2 : (sock.pending.drop 4).take L.toNat ++ sock.pending.drop (4 + L.toNat)
        = sock.pending.drop 4 := take_drop_append_drop _ _ _
    rw [e1, e2, List.take_append_drop]
  have hname : (((sock.pending.drop 4).take L.toNat).length : Int) = L := by
    rw [List.length_take, List.length_drop]; omega
  have hrest : ((sock.pending.drop (4 + L.toNat + 8)).length : Int)
      = sock.pending.length - 12 - L := by
    rw [List.length_drop]; omega
  have hframe := receiveFile_frame canCreate sock _ _ _ _ hlive hpend
    (by rw [List.length_take]; omega) (by rw [hLdef, hname])
    (by rw [List.length_take, List.length_drop]; omega) hcreate
  rw [hNdef] at hframe
  constructor
  · intro hok
    by_contra hshort
    obtain ⟨s', h'⟩ := hframe.2 (by omega)
    rw [h'] at hok
    cases hok
  · intro hlong
    obtain ⟨s', h', _⟩ := hframe.1 (by omega)
    rw [h']

set_option maxRecDepth 1000000 in
/-- C8 on a 16-byte stream delivered in four pieces: the name `A` (`L = 1`),
the size `N = 3` and three payload bytes. -/
theorem receiveFile_no_short_read_witness :
    (Sender.receiveFile (fun _ => true)
      ⟨[[1, 0, 0], [0, 65, 3, 0, 0, 0], [0, 0, 0, 0, 7, 8], [9]], [], []⟩).outcome
      = Outcome.success :=
  ((receiveFile_no_short_read (fun _ => true)
      ⟨[[1, 0, 0], [0, 65, 3, 0, 0, 0], [0, 0, 0, 0, 7, 8], [9]], [], []⟩ (by decide)).2.2
    (by decide) (by decide) (by decide) (by decide) rfl).mpr (by decide)

/-! ## Header integers are signed -/

set_option maxRecDepth 1000000 in
/-- C9 as stated fails: with the top bit of the last byte set, the decoded
filename length and file size are negative. The bytes `00 00 00 80` decode to
`-2^31`, not `2^31`, and `00 00 00 00 00 00 00 80` to `-2^63`, not `2^63`, in
both files. -/
theorem header_decode_top_bit_negative :
    Sender.decodeFnLen [0, 0, 0, 128] = -2147483648
    ∧ Sender.decodeFnLen [0, 0, 0, 128] ≠ 0 + 2 ^ 8 * 0 + 2 ^ 16 * 0 + 2 ^ 24 * 128
    ∧ Listener.decodeFnLen [0, 0, 0, 128] < 0
    ∧ Sender.decodeFileSize [0, 0, 0, 0, 0, 0, 0, 128] = -9223372036854775808
    ∧ Sender.decodeFileSize [0, 0, 0, 0, 0, 0, 0, 128] ≠ 2 ^ 56 * 128
    ∧ Listener.decodeFileSize [0, 0, 0, 0, 0, 0, 0, 128] < 0 := by
  decide

/-- C9 as amended: the header integers are little-endian two's-complement
signed. The 4 bytes `b0..b3` of the filename-length field decode to
`U = b0 + 2^8 b1 + 2^16 b2 + 2^24 b3` when `b3 < 128` and to `U - 2^32`
otherwise; the 8 bytes `c0..c7` of the file-size field decode to
`V = sum of c_i 2^(8 i)` when `c7 < 128` and to `V - 2^64` otherwise; the same
in listener.cpp and sender.cpp. -/
theorem header_decode_signed (b0 b1 b2 b3 c0 c1 c2 c3 c4 c5 c6 c7 : Byte) :
    Sender.decodeFnLen [b0, b1, b2, b3]
      = (if b3.toNat < 128
          then (b0.toNat : Int) + 2 ^ 8 * b1.toNat + 2 ^ 16 * b2.toNat + 2 ^ 24 * b3.toNat
          else (b0.toNat : Int) + 2 ^ 8 * b1.toNat + 2 ^ 16 * b2.toNat + 2 ^ 24 * b3.toNat
            - 2 ^ 32)
    ∧ Listener.decodeFnLen [b0, b1, b2, b3] = Sender.decodeFnLen [b0, b1, b2, b3]
    ∧ Sender.decodeFileSize [c0, c1, c2, c3, c4, c5, c6, c7]
      = (if c7.toNat < 128
          then (c0.toNat : Int) + 2 ^ 8 * c1.toNat + 2 ^ 16 * c2.toNat + 2 ^ 24 * c3.toNat
            + 2 ^ 32 * c4.toNat + 2 ^ 40 * c5.toNat + 2 ^ 48 * c6.toNat + 2 ^ 56 * c7.toNat
          else (c0.toNat : Int) + 2 ^ 8 * c1.toNat + 2 ^ 16 * c2.toNat + 2 ^ 24 * c3.toNat
            + 2 ^ 32 * c4.toNat + 2 ^ 40 * c5.toNat + 2 ^ 48 * c6.toNat + 2 ^ 56 * c7.toNat
            - 2 ^ 64)
    ∧ Listener.decodeFileSize [c0, c1, c2, c3, c4, c5, c6, c7]
      = Sender.decodeFileSize [c0, c1, c2, c3, c4, c5, c6, c7] := by
  have hb0 := byte_toNat_lt b0
  have hb1 := byte_toNat_lt b1
  have hb2 := byte_toNat_lt b2
  have hb3 := byte_toNat_lt b3
  have hc0 := byte_toNat_lt c0
  have hc1 := byte_toNat_lt c1
  have hc2 := byte_toNat_lt c2
  have hc3 := byte_toNat_lt c3
  have hc4 := byte_toNat_lt c4
  have hc5 := byte_toNat_lt c5
  have hc6 := byte_toNat_lt c6
  have hc7 := byte_toNat_lt c7
  refine ⟨?_, rfl, ?_, rfl⟩
  · rw [decodeFnLen_eq]
    unfold toInt32
    push_cast
    split <;> omega
  · rw [decodeFileSize_eq]
    unfold toInt64
    push_cast
    split <;> omega

/-! ## The worker pool: what every interleaving preserves -/

theorem init_workers_idle (i : Nat) (w : Sender.WorkerState)
    (h : Sender.Pool.init.workers[i]? = some w) : w = Sender.WorkerState.idle := by
  have h' : (List.replicate 4 Sender.WorkerState.idle)[i]? = some w := h
  rw [List.getElem?_replicate] at h'
  split at h'
  · exact (Option.some.inj h').symm
  · cases h'

theorem poolInv_init : PoolInv Sender.Pool.init := by
  refine ⟨rfl, ?_, ?_, ?_, ?_, ?_, ?_, ?_, ?_, ?_, ?_, ?_, ?_, ?_, ?_⟩
  · intro t ht; cases ht
  · exact List.nodup_nil
  · intro i t hi; cases init_workers_idle i _ hi
  · intro i t hi; cases init_workers_idle i _ hi
  · intro i t hi; cases init_workers_idle i _ hi
  · intro i t hi; cases init_workers_idle i _ hi
  · intro i j t hi; cases init_workers_idle i _ hi
  · exact List.nodup_nil
  · intro e he; cases he
  · exact List.nodup_nil
  · intro d hd; cases hd
  · intro d hd; cases hd
  · intro t ht; exact absurd ht (Nat.not_lt_zero t)
  · intro i hi; cases init_workers_idle i _ hi

theorem poolInv_submit (s : Sender.Pool) (h : PoolInv s) (hs : s.shouldShutdown = false) :
    PoolInv (Sender.submitTask s) := by
  have hfresh : s.submitted ∉ s.taskQueue := fun hm => Nat.lt_irrefl _ (h.queue_lt _ hm)
  refine ⟨h.workers_length, ?_, ?_, ?_, ?_, h.held_not_executed, h.held_dequeued,
    h.held_unique, h.executed_nodup, h.executed_dequeued, h.dequeued_nodup, ?_, ?_, ?_, ?_⟩
  · intro t ht
    simp only [Sender.submitTask, List.mem_append, List.mem_singleton] at ht ⊢
    rcases ht with ht | rfl
    · exact Nat.lt_succ_of_lt (h.queue_lt t ht)
    · exact Nat.lt_succ_self _
  · simp only [Sender.submitTask]
    rw [List.nodup_append]
    refine ⟨h.queue_nodup, List.nodup_singleton _, ?_⟩
    intro a ha hb
    simp only [List.mem_singleton] at hb
    subst hb
    exact hfresh ha
  · intro i t hi
    exact Nat.lt_succ_of_lt (h.held_lt i t hi)
  · intro i t hi
    simp only [Sender.submitTask, List.mem_append, List.mem_singleton, not_or]
    exact ⟨h.held_not_queued i t hi, Nat.ne_of_lt (h.held_lt i t hi)⟩
  · intro d hd
    exact ⟨Nat.lt_succ_of_lt (h.dequeued_lt d hd).1, (h.dequeued_lt d hd).2⟩
  · intro d hd
    simp only [Sender.submitTask, List.mem_append, List.mem_singleton, not_or]
    exact ⟨h.dequeued_not_queued d hd, Nat.ne_of_lt (h.dequeued_lt d hd).1⟩
  · intro t ht
    simp only [Sender.submitTask, List.mem_append, List.mem_singleton] at ht ⊢
    rcases Nat.lt_succ_iff_lt_or_eq.mp ht with hlt | rfl
    · rcases h.accounted t hlt with h1 | h1 | h1
      · exact Or.inl (Or.inl h1)
      · exact Or.inr (Or.inl h1)
      · exact Or.inr (Or.inr h1)
    · exact Or.inl (Or.inr rfl)
  · intro i hi
    have := (h.exited_drained i hi).1
    rw [hs] at this
    cases this

theorem getElem?_set_cases {α : Type} (l : List α) (i j : Nat) (w x : α)
    (h : (l.set i w)[j]? = some x) : (j = i ∧ x = w) ∨ (j ≠ i ∧ l[j]? = some x) := by
  rw [List.getElem?_set] at h
  by_cases hij : i = j
  · rw [if_pos hij] at h
    split at h
    · exact Or.inl ⟨hij.symm, (Option.some.inj h).symm⟩
    · cases h
  · rw [if_neg hij] at h
    exact Or.inr ⟨fun e => hij e.symm, h⟩

theorem getElem?_set_of_ne {α : Type} (l : List α) (i j : Nat) (w x : α) (hne : j ≠ i)
    (h : l[j]? = some x) : (l.set i w)[j]? = some x := by
  rw [List.getElem?_set_ne (fun e => hne e.symm)]
  exact h

theorem getElem?_set_same {α : Type} (l : List α) (i : Nat) (w x : α) (h : l[i]? = some x) :
    (l.set i w)[i]? = some w := by
  have hi : i < l.length := by
    by_contra hlt
    rw [List.getElem?_eq_none (by omega)] at h
    cases h
  exact List.getElem?_set_self hi

theorem lt_length_of_getElem? {α : Type} (l : List α) (i : Nat) (x : α) (h : l[i]? = some x) :
    i < l.length := by
  by_contra hlt
  rw [List.getElem?_eq_none (by omega)] at h
  cases h

theorem poolInv_shutdown (s : Sender.Pool) (h : PoolInv s) :
    PoolInv (Sender.requestShutdown s) := by
  refine ⟨h.workers_length, h.queue_lt, h.queue_nodup, h.held_lt, h.held_not_queued,
    h.held_not_executed, h.held_dequeued, h.held_unique, h.executed_nodup,
    h.executed_dequeued, h.dequeued_nodup, h.dequeued_lt, h.dequeued_not_queued, h.accounted, ?_⟩
  intro i hi
  exact ⟨rfl, (h.exited_drained i hi).2⟩

/-- Replacing the state of a worker that holds no task by a state that holds
no task and is not `exited` keeps every fact of the invariant. -/
theorem poolInv_set_plain (s : Sender.Pool) (h : PoolInv s) (i : Nat)
    (old new : Sender.WorkerState) (a : Int) (hold : s.workers[i]? = some old)
    (hold' : ∀ t, old ≠ Sender.WorkerState.holding t)
    (hnew : ∀ t, new ≠ Sender.WorkerState.holding t)
    (hnew' : new ≠ Sender.WorkerState.exited) :
    PoolInv { s with workers := s.workers.set i new, activeThreads := a } := by
  have look : ∀ (j t : Nat), (s.workers.set i new)[j]? = some (Sender.WorkerState.holding t) →
      s.workers[j]? = some (Sender.WorkerState.holding t) := by
    intro j t hj
    rcases getElem?_set_cases _ _ _ _ _ hj with ⟨_, hx⟩ | ⟨_, hx⟩
    · exact absurd hx.symm (hnew t)
    · exact hx
  refine ⟨by simp [h.workers_length], h.queue_lt, h.queue_nodup, ?_, ?_, ?_, ?_, ?_,
    h.executed_nodup, h.executed_dequeued, h.dequeued_nodup, h.dequeued_lt,
    h.dequeued_not_queued, ?_, ?_⟩
  · intro j t hj; exact h.held_lt j t (look j t hj)
  · intro j t hj; exact h.held_not_queued j t (look j t hj)
  · intro j t hj; exact h.held_not_executed j t (look j t hj)
  · intro j t hj; exact h.held_dequeued j t (look j t hj)
  · intro j k t hj hk; exact h.held_unique j k t (look j t hj) (look k t hk)
  · intro t ht
    rcases h.accounted t ht with h1 | ⟨k, hk⟩ | h1
    · exact Or.inl h1
    · refine Or.inr (Or.inl ⟨k, getElem?_set_of_ne _ _ _ _ _ ?_ hk⟩)
      intro e
      subst e
      rw [hold] at hk
      exact hold' t (Option.some.inj hk)
    · exact Or.inr (Or.inr h1)
  · intro j hj
    rcases getElem?_set_cases _ _ _ _ _ hj with ⟨_, hx⟩ | ⟨_, hx⟩
    · exact absurd hx.symm hnew'
    · exact h.exited_drained j hx

theorem poolInv_done (s s' : Sender.Pool) (h : PoolInv s) (i : Nat)
    (hstep : Sender.workerDone s i = some s') : PoolInv s' := by
  unfold Sender.workerDone at hstep
  split at hstep
  · rename_i hi
    cases hstep
    exact poolInv_set_plain s h i _ _ _ hi (fun t e => by cases e) (fun t e => by cases e)
      (fun e => by cases e)
  · cases hstep

theorem poolInv_exit (s : Sender.Pool) (h : PoolInv s) (i : Nat)
    (hidle : s.workers[i]? = some Sender.WorkerState.idle)
    (hdown : s.shouldShutdown = true) (hempty : s.taskQueue = []) :
    PoolInv { s with workers := s.workers.set i Sender.WorkerState.exited } := by
  have look : ∀ (j t : Nat),
      (s.workers.set i Sender.WorkerState.exited)[j]? = some (Sender.WorkerState.holding t) →
      s.workers[j]? = some (Sender.WorkerState.holding t) := by
    intro j t hj
    rcases getElem?_set_cases _ _ _ _ _ hj with ⟨_, hx⟩ | ⟨_, hx⟩
    · cases hx
    · exact hx
  refine ⟨by simp [h.workers_length], h.queue_lt, h.queue_nodup, ?_, ?_, ?_, ?_, ?_,
    h.executed_nodup, h.executed_dequeued, h.dequeued_nodup, h.dequeued_lt,
    h.dequeued_not_queued, ?_, ?_⟩
  · intro j t hj; exact h.held_lt j t (look j t hj)
  · intro j t hj; exact h.held_not_queued j t (look j t hj)
  · intro j t hj; exact h.held_not_executed j t (look j t hj)
  · intro j t hj; exact h.held_dequeued j t (look j t hj)
  · intro j k t hj hk; exact h.held_unique j k t (look j t hj) (look k t hk)
  · intro t ht
    rcases h.accounted t ht with h1 | ⟨k, hk⟩ | h1
    · exact Or.inl h1
    · refine Or.inr (Or.inl ⟨k, getElem?_set_of_ne _ _ _ _ _ ?_ hk⟩)
      intro e
      subst e
      rw [hidle] at hk
      cases hk
    · exact Or.inr (Or.inr h1)
  · intro j _
    exact ⟨hdown, hempty⟩

theorem poolInv_dequeue (s : Sender.Pool) (h : PoolInv s) (i task : Nat) (rest : List Nat)
    (hidle : s.workers[i]? = some Sender.WorkerState.idle)
    (hq : s.taskQueue = task :: rest) :
    PoolInv { s with taskQueue := rest,
                     workers := s.workers.set i (Sender.WorkerState.holding task),
                     dequeued := s.dequeued ++ [(i, task)] } := by
  have hmem : task ∈ s.taskQueue := by rw [hq]; exact List.mem_cons_self _ _
  have hsub : ∀ t, t ∈ rest → t ∈ s.taskQueue := by
    intro t ht; rw [hq]; exact List.mem_cons_of_mem _ ht
  have hnd : task ∉ rest ∧ rest.Nodup := by
    have := h.queue_nodup
    rw [hq] at this
    exact List.nodup_cons.mp this
  have hi4 : i < 4 := by
    rw [← h.workers_length]; exact lt_length_of_getElem? _ _ _ hidle
  have look : ∀ (j t : Nat),
      (s.workers.set i (Sender.WorkerState.holding task))[j]?
        = some (Sender.WorkerState.holding t) →
      (j = i ∧ t = task) ∨ (j ≠ i ∧ s.workers[j]? = some (Sender.WorkerState.holding t)) := by
    intro j t hj
    rcases getElem?_set_cases _ _ _ _ _ hj with ⟨e, hx⟩ | ⟨e, hx⟩
    · cases hx; exact Or.inl ⟨e, rfl⟩
    · exact Or.inr ⟨e, hx⟩
  have hnotdeq : task ∉ s.dequeued.map Prod.snd := by
    intro hm
    obtain ⟨d, hd, hd2⟩ := List.mem_map.mp hm
    exact h.dequeued_not_queued d hd (hd2 ▸ hmem)
  refine ⟨by simp [h.workers_length], ?_, hnd.2, ?_, ?_, ?_, ?_, ?_, h.executed_nodup, ?_,
    ?_, ?_, ?_, ?_, ?_⟩
  · intro t ht; exact h.queue_lt t (hsub t ht)
  · intro j t hj
    rcases look j t hj with ⟨_, rfl⟩ | ⟨_, hx⟩
    · exact h.queue_lt _ hmem
    · exact h.held_lt j t hx
  · intro j t hj
    rcases look j t hj with ⟨_, rfl⟩ | ⟨_, hx⟩
    · exact hnd.1
    · exact fun hm => h.held_not_queued j t hx (hsub t hm)
  · intro j t hj
    rcases look j t hj with ⟨_, rfl⟩ | ⟨_, hx⟩
    · intro hm
      obtain ⟨e, he, he2⟩ := List.mem_map.mp hm
      exact h.dequeued_not_queued e (h.executed_dequeued e he) (he2 ▸ hmem)
    · exact h.held_not_executed j t hx
  · intro j t hj
    rcases look j t hj with ⟨rfl, rfl⟩ | ⟨_, hx⟩
    · exact List.mem_append_right _ (List.mem_singleton_self _)
    · exact List.mem_append_left _ (h.held_dequeued j t hx)
  · intro j k t hj hk
    rcases look j t hj with ⟨ej, et⟩ | ⟨_, hx⟩
    · rcases look k t hk with ⟨ek, _⟩ | ⟨_, hy⟩
      · rw [ej, ek]
      · exact absurd (et ▸ hmem) (h.held_not_queued k t hy)
    · rcases look k t hk with ⟨_, et⟩ | ⟨_, hy⟩
      · exact absurd (et ▸ hmem) (h.held_not_queued j t hx)
      · exact h.held_unique j k t hx hy
  · intro e he
    exact List.mem_append_left _ (h.executed_dequeued e he)
  · show ((s.dequeued ++ [(i, task)]).map Prod.snd).Nodup
    rw [List.map_append, List.nodup_append]
    refine ⟨h.dequeued_nodup, List.nodup_singleton _, ?_⟩
    intro a ha hb
    simp only [List.map_cons, List.map_nil, List.mem_singleton] at hb
    subst hb
    exact hnotdeq ha
  · intro d hd
    rcases List.mem_append.mp hd with hd | hd
    · exact h.dequeued_lt d hd
    · rw [List.mem_singleton] at hd
      subst hd
      exact ⟨h.queue_lt _ hmem, hi4⟩
  · intro d hd
    rcases List.mem_append.mp hd with hd | hd
    · exact fun hm => h.dequeued_not_queued d hd (hsub _ hm)
    · rw [List.mem_singleton] at hd
      subst hd
      exact hnd.1
  · intro t ht
    rcases h.accounted t ht with h1 | ⟨k, hk⟩ | h1
    · rw [hq] at h1
      rcases List.mem_cons.mp h1 with rfl | h1
      · exact Or.inr (Or.inl ⟨i, getElem?_set_same _ _ _ _ hidle⟩)
      · exact Or.inl h1
    · refine Or.inr (Or.inl ⟨k, getElem?_set_of_ne _ _ _ _ _ ?_ hk⟩)
      intro e
      subst e
      rw [hidle] at hk
      cases hk
    · exact Or.inr (Or.inr h1)
  · intro j hj
    rcases getElem?_set_cases _ _ _ _ _ hj with ⟨_, hx⟩ | ⟨_, hx⟩
    · cases hx
    · have := (h.exited_drained j hx).2
      rw [hq] at this
      cases this

theorem poolInv_run (s : Sender.Pool) (h : PoolInv s) (i task : Nat)
    (hheld : s.workers[i]? = some (Sender.WorkerState.holding task)) :
    PoolInv { s with workers := s.workers.set i Sender.WorkerState.ran,
                     executed := s.executed ++ [(i, task)] } := by
  have look : ∀ (j t : Nat),
      (s.workers.set i Sender.WorkerState.ran)[j]? = some (Sender.WorkerState.holding t) →
      j ≠ i ∧ s.workers[j]? = some (Sender.WorkerState.holding t) := by
    intro j t hj
    rcases getElem?_set_cases _ _ _ _ _ hj with ⟨_, hx⟩ | ⟨e, hx⟩
    · cases hx
    · exact ⟨e, hx⟩
  refine ⟨by simp [h.workers_length], h.queue_lt, h.queue_nodup, ?_, ?_, ?_, ?_, ?_, ?_, ?_,
    h.dequeued_nodup, h.dequeued_lt, h.dequeued_not_queued, ?_, ?_⟩
  · intro j t hj; exact h.held_lt j t (look j t hj).2
  · intro j t hj; exact h.held_not_queued j t (look j t hj).2
  · intro j t hj
    show t ∉ (s.executed ++ [(i, task)]).map Prod.snd
    rw [List.map_append, List.mem_append, not_or]
    refine ⟨h.held_not_executed j t (look j t hj).2, ?_⟩
    intro hm
    simp only [List.map_cons, List.map_nil, List.mem_singleton] at hm
    subst hm
    exact (look j t hj).1 (h.held_unique j i t (look j t hj).2 hheld)
  · intro j t hj; exact h.held_dequeued j t (look j t hj).2
  · intro j k t hj hk; exact h.held_unique j k t (look j t hj).2 (look k t hk).2
  · show ((s.executed ++ [(i, task)]).map Prod.snd).Nodup
    rw [List.map_append, List.nodup_append]
    refine ⟨h.executed_nodup, List.nodup_singleton _, ?_⟩
    intro a ha hb
    simp only [List.map_cons, List.map_nil, List.mem_singleton] at hb
    subst hb
    exact h.held_not_executed i a hheld ha
  · intro e he
    rcases List.mem_append.mp he with he | he
    · exact h.executed_dequeued e he
    · rw [List.mem_singleton] at he
      subst he
      exact h.held_dequeued i task hheld
  · intro t ht
    show t ∈ s.taskQueue ∨ _ ∨ t ∈ (s.executed ++ [(i, task)]).map Prod.snd
    rw [List.map_append, List.mem_append]
    rcases h.accounted t ht with h1 | ⟨k, hk⟩ | h1
    · exact Or.inl h1
    · by_cases e : k = i
      · subst e
        rw [hheld] at hk
        cases hk
        exact Or.inr (Or.inr (Or.inr (by simp)))
      · exact Or.inr (Or.inl ⟨k, getElem?_set_of_ne _ _ _ _ _ e hk⟩)
    · exact Or.inr (Or.inr (Or.inl h1))
  · intro j hj
    rcases getElem?_set_cases _ _ _ _ _ hj with ⟨_, hx⟩ | ⟨_, hx⟩
    · cases hx
    · exact h.exited_drained j hx

theorem poolInv_step (s s' : Sender.Pool) (a : Sender.Action) (h : PoolInv s)
    (hstep : s.step a = some s') : PoolInv s' := by
  cases a with
  | submit =>
    simp only [Sender.Pool.step] at hstep
    split at hstep
    · cases hstep
    · rename_i hs
      cases hstep
      exact poolInv_submit s h (by simpa using hs)
  | lock i =>
    simp only [Sender.Pool.step, Sender.workerLocked] at hstep
    split at hstep
    · rename_i hc
      split at hstep
      · rename_i hx
        cases hstep
        exact poolInv_exit s h i hc.1 hx.1 hx.2
      · split at hstep
        · rename_i task rest hq
          cases hstep
          exact poolInv_dequeue s h i task rest hc.1 hq
        · cases hstep
          exact h
    · cases hstep
  | run i =>
    simp only [Sender.Pool.step, Sender.workerRun] at hstep
    split at hstep
    · rename_i task hheld
      cases hstep
      exact poolInv_run s h i task hheld
    · cases hstep
  | done i => exact poolInv_done s s' h i hstep
  | shutdown =>
    simp only [Sender.Pool.step] at hstep
    cases hstep
    exact poolInv_shutdown s h

theorem poolInv_steps (acts : List Sender.Action) (s s' : Sender.Pool) (h : PoolInv s)
    (hrun : s.steps acts = some s') : PoolInv s' := by
  induction acts generalizing s with
  | nil =>
    simp only [Sender.Pool.steps] at hrun
    cases hrun
    exact h
  | cons a rest ih =>
    simp only [Sender.Pool.steps] at hrun
    split at hrun
    · rename_i s1 hs1
      exact ih s1 (poolInv_step s s1 a h hs1) hrun
    · cases hrun

theorem step_submitted (s s' : Sender.Pool) (a : Sender.Action) (hstep : s.step a = some s') :
    s'.submitted = s.submitted + (if a = Sender.Action.submit then 1 else 0) := by
  cases a with
  | submit =>
    simp only [Sender.Pool.step] at hstep
    split at hstep
    · cases hstep
    · cases hstep
      rfl
  | lock i =>
    simp only [Sender.Pool.step, Sender.workerLocked] at hstep
    split at hstep
    · split at hstep
      · cases hstep; rfl
      · split at hstep
        · cases hstep; rfl
        · cases hstep; rfl
    · cases hstep
  | run i =>
    simp only [Sender.Pool.step, Sender.workerRun] at hstep
    split at hstep
    · cases hstep; rfl
    · cases hstep
  | done i =>
    simp only [Sender.Pool.step, Sender.workerDone] at hstep
    split at hstep
    · cases hstep; rfl
    · cases hstep
  | shutdown =>
    simp only [Sender.Pool.step] at hstep
    cases hstep
    rfl

theorem steps_submitted (acts : List Sender.Action) (s s' : Sender.Pool)
    (hrun : s.steps acts = some s') :
    s'.submitted = s.submitted + acts.count Sender.Action.submit := by
  induction acts generalizing s with
  | nil =>
    simp only [Sender.Pool.steps] at hrun
    cases hrun
    rfl
  | cons a rest ih =>
    simp only [Sender.Pool.steps] at hrun
    split at hrun
    · rename_i s1 hs1
      rw [ih s1 hrun, step_submitted s s1 a hs1, List.count_cons]
      by_cases ha : a = Sender.Action.submit
      · subst ha
        simp only [if_true, beq_self_eq_true]
        omega
      · have hb : (a == Sender.Action.submit) = false := by simpa using ha
        rw [if_neg ha, hb, if_neg (by decide)]
        omega
    · cases hrun

/-! ## Exactly-once execution -/

/-- C10: take any interleaving of calls of `submitTask`, steps of the 4
`threadPoolWorker` threads and the shutdown request, with `k` calls of
`submitTask` (any `k`). In the state it leads to, `k` tasks have been
submitted, no task was run twice, no task was dequeued twice (so by at most
one worker), and every run is by the worker that dequeued the task. Once
shutdown is requested and the 4 workers have left their loops, every submitted
task has been dequeued exactly once and run exactly once. -/
theorem pool_exactly_once (acts : List Sender.Action) (s : Sender.Pool)
    (hrun : Sender.Pool.init.steps acts = some s) :
    s.submitted = acts.count Sender.Action.submit
    ∧ (s.executed.map Prod.snd).Nodup
    ∧ (s.dequeued.map Prod.snd).Nodup
    ∧ (∀ e ∈ s.executed, e ∈ s.dequeued ∧ e.2 < s.submitted ∧ e.1 < 4)
    ∧ (s.shouldShutdown = true → s.Joined → ∀ t, t < s.submitted →
        (s.executed.map Prod.snd).count t = 1 ∧ (s.dequeued.map Prod.snd).count t = 1) := by
  have h := poolInv_steps acts _ s poolInv_init hrun
  have hk := steps_submitted acts _ s hrun
  refine ⟨by rw [hk]; simp [Sender.Pool.init], h.executed_nodup, h.dequeued_nodup, ?_, ?_⟩
  · intro e he
    have hd := h.executed_dequeued e he
    exact ⟨hd, h.dequeued_lt e hd⟩
  · intro _ hjoin t ht
    have hq : s.taskQueue = [] := (h.exited_drained 0 (hjoin 0 (by decide))).2
    have hex : t ∈ s.executed.map Prod.snd := by
      rcases h.accounted t ht with h1 | ⟨k, hk⟩ | h1
      · rw [hq] at h1
        cases h1
      · have hk4 : k < 4 := by
          rw [← h.workers_length]; exact lt_length_of_getElem? _ _ _ hk
        rw [hjoin k hk4] at hk
        cases hk
      · exact h1
    refine ⟨List.count_eq_one_of_mem h.executed_nodup hex, ?_⟩
    obtain ⟨e, he, he2⟩ := List.mem_map.mp hex
    exact List.count_eq_one_of_mem h.dequeued_nodup
      (List.mem_map.mpr ⟨e, h.executed_dequeued e he, he2⟩)

/-- C10 on an interleaving with 5 tasks for the 4 workers: worker 2 runs
task 2 and later task 4; the fifth task, like the others, is dequeued once
and run once. -/
theorem pool_exactly_once_witness :
    ([(2, 2), (0, 0), (1, 1), (3, 3), (2, 4)].map Prod.snd).count 4 = 1
    ∧ ([(0, 0), (1, 1), (2, 2), (3, 3), (2, 4)].map Prod.snd).count 4 = 1 :=
  (pool_exactly_once
    [Sender.Action.submit, Sender.Action.submit, Sender.Action.lock 0, Sender.Action.submit,
      Sender.Action.submit, Sender.Action.lock 1, Sender.Action.lock 2, Sender.Action.submit,
      Sender.Action.lock 3, Sender.Action.run 2, Sender.Action.run 0, Sender.Action.done 2,
      Sender.Action.lock 2, Sender.Action.run 1, Sender.Action.run 3, Sender.Action.done 0,
      Sender.Action.run 2, Sender.Action.done 1, Sender.Action.done 3, Sender.Action.shutdown,
      Sender.Action.lock 0, Sender.Action.done 2, Sender.Action.lock 1, Sender.Action.lock 2,
      Sender.Action.lock 3]
    { taskQueue := [], activeThreads := 0, shouldShutdown := true,
      workers := [Sender.WorkerState.exited, Sender.WorkerState.exited,
        Sender.WorkerState.exited, Sender.WorkerState.exited],
      submitted := 5,
      dequeued := [(0, 0), (1, 1), (2, 2), (3, 3), (2, 4)],
      executed := [(2, 2), (0, 0), (1, 1), (3, 3), (2, 4)] }
    (by decide)).2.2.2.2 rfl (by decide) 4 (by decide)

/-! ## Role pairing of ports -/

/-- C11: with the default base port the hub listens on 5050 with role `Send`
and on 5051 with role `Receive`. A peer in mode `send` connects to 5051 and a
peer in mode `receive` to 5050, whatever port it was given, so the hub port it
reaches (also as the 16-bit port `htons` gives) has the role opposite to its
own transfer. The role of a submitted
task is fixed by the accept thread, that is by the port: it is the same for
every accepted connection. -/
theorem role_pairing_of_ports (port p : Int) (fileToSend : String) (receiveOk isSendMode : Bool)
    (c1 c2 : Nat) :
    Sender.basePort none = 5050
    ∧ Sender.acceptThreads (Sender.basePort none) = [(5050, true), (5051, false)]
    ∧ Sender.roleOfPort (Sender.basePort none) 5050 = some Role.Send
    ∧ Sender.roleOfPort (Sender.basePort none) 5051 = some Role.Receive
    ∧ Listener.actualPort port "send" = 5051
    ∧ Listener.actualPort port "receive" = 5050
    ∧ Listener.transfers "send" fileToSend receiveOk
        = (if fileToSend.isEmpty then [] else [Role.Send])
    ∧ Listener.transfers "receive" fileToSend receiveOk = [Role.Receive]
    ∧ Sender.roleOfPort (Sender.basePort none) (Listener.actualPort port "send")
        = some (Role.opposite Role.Send)
    ∧ Sender.roleOfPort (Sender.basePort none) (Listener.actualPort port "receive")
        = some (Role.opposite Role.Receive)
    ∧ (Sender.acceptOnPort p isSendMode c1).role = (Sender.acceptOnPort p isSendMode c2).role
    ∧ (Sender.acceptOnPort 5050 true c1).role = Role.Send
    ∧ (Sender.acceptOnPort 5051 false c1).role = Role.Receive
    ∧ Listener.connectPort port "send" = 5051
    ∧ Listener.connectPort port "receive" = 5050
    ∧ Sender.roleOfPort (Sender.basePort none) (Listener.connectPort port "send")
        = some (Role.opposite Role.Send)
    ∧ Sender.roleOfPort (Sender.basePort none) (Listener.connectPort port "receive")
        = some (Role.opposite Role.Receive) := by
  have hs : Listener.actualPort port "send" = 5051 := by
    simp [Listener.actualPort, Listener.PORT_SEND]
  have hr : Listener.actualPort port "receive" = 5050 := by
    simp [Listener.actualPort, Listener.PORT_RECEIVE]
  have hcs : Listener.connectPort port "send" = 5051 := by
    unfold Listener.connectPort; rw [hs]; decide
  have hcr : Listener.connectPort port "receive" = 5050 := by
    unfold Listener.connectPort; rw [hr]; decide
  refine ⟨rfl, by decide, by decide, by decide, hs, hr, ?_, ?_, ?_, ?_, rfl, rfl, rfl, hcs, hcr,
    ?_, ?_⟩
  · simp [Listener.transfers]
  · simp [Listener.transfers]
  · rw [hs]; decide
  · rw [hr]; decide
  · rw [hcs]; decide
  · rw [hcr]; decide

/-! ## The file left by a transfer that fails in the payload -/

/-- C12: after a valid header announcing a payload `p` of `N = |p|` bytes, if
the connection closes after delivering only the first `m < N` payload bytes,
in any split into pieces, `receiveFile` returns `false` and the destination
file holds exactly the first `65536 * (m / 65536)` bytes of `p`: whole chunks
only, none of the partly received chunk. Both copies of `receiveFile` do the
same. -/
theorem partial_file_whole_chunks (canCreate : List Byte → Bool) (sock : Socket)
    (hdr name size8 p : List Byte) (m : Nat) (hlive : sock.Live)
    (hpend : sock.pending = hdr ++ (name ++ (size8 ++ p.take m)))
    (hhdr : hdr.length = 4) (hL : Sender.decodeFnLen hdr = name.length)
    (hsize : size8.length = 8) (hN : Sender.decodeFileSize size8 = p.length)
    (hm : m < p.length) (hcreate : canCreate (c_str (Sender.outFilename name)) = true) :
    (∃ sock', Sender.receiveFile canCreate sock
      = ⟨Outcome.failure, sock', some (name, (p.length : Int)),
          some (c_str (Sender.outFilename name), p.take (65536 * (m / 65536)))⟩)
    ∧ Listener.receiveFile canCreate sock = Sender.receiveFile canCreate sock
    ∧ (p.take (65536 * (m / 65536))).length = 65536 * (m / 65536)
    ∧ 65536 * (m / 65536) ≤ m ∧ m < 65536 * (m / 65536) + 65536 := by
  have hframe := receiveFile_frame canCreate sock hdr name size8 (p.take m) hlive hpend hhdr hL
    hsize hcreate
  have hlen : (p.take m).length = m := by
    rw [List.length_take]; omega
  rw [hN, hlen] at hframe
  obtain ⟨sock', h'⟩ := hframe.2 (by omega)
  refine ⟨⟨sock', ?_⟩, peer_receiveFile_eq canCreate sock, ?_, by omega, by omega⟩
  · rw [h', List.take_take]
    have hmin : min (65536 * (m / 65536)) m = 65536 * (m / 65536) := by omega
    rw [hmin]
  · rw [List.length_take]; omega

set_option maxRecDepth 1000000 in
/-- C12 on the name `A`, a payload of 3 bytes and a connection that closes
after 2 of them: the file is created and left empty. -/
theorem partial_file_whole_chunks_witness :
    ∃ sock', Sender.receiveFile (fun _ => true)
        ⟨[[1, 0, 0, 0, 65], [3, 0, 0, 0, 0, 0, 0, 0], [7], [8]], [], []⟩
      = ⟨Outcome.failure, sock', some ([65], (([7, 8, 9] : List Byte).length : Int)),
          some (c_str (Sender.outFilename [65]),
            ([7, 8, 9] : List Byte).take (65536 * (2 / 65536)))⟩ :=
  (partial_file_whole_chunks (fun _ => true)
    ⟨[[1, 0, 0, 0, 65], [3, 0, 0, 0, 0, 0, 0, 0], [7], [8]], [], []⟩
    [1, 0, 0, 0] [65] [3, 0, 0, 0, 0, 0, 0, 0] [7, 8, 9] 2
    (by decide) (by decide) (by decide) (by decide) (by decide) (by decide) (by decide) rfl).1

/-! ## The counter of outstanding tasks -/

theorem countP_set_of_getElem? {α : Type} (p : α → Bool) (l : List α) (i : Nat) (old w : α)
    (h : l[i]? = some old) :
    (l.set i w).countP p + (if p old then 1 else 0) = l.countP p + (if p w then 1 else 0) := by
  induction l generalizing i with
  | nil => cases h
  | cons x rest ih =>
    cases i with
    | zero =>
      have hx : x = old := by simpa using h
      subst hx
      simp only [List.set_cons_zero, List.countP_cons]
      omega
    | succ i =>
      have h' : rest[i]? = some old := by simpa using h
      have := ih i h'
      simp only [List.set_cons_succ, List.countP_cons]
      omega

theorem poolCount_init :
    Sender.Pool.init.activeThreads = (Sender.Pool.init.outstanding : Int)
    ∧ Sender.Pool.init.dequeued.map Prod.snd ++ Sender.Pool.init.taskQueue
        = List.range Sender.Pool.init.submitted := by
  decide

theorem poolCount_step (s s' : Sender.Pool) (a : Sender.Action)
    (hc : s.activeThreads = (s.outstanding : Int))
    (hf : s.dequeued.map Prod.snd ++ s.taskQueue = List.range s.submitted)
    (hstep : s.step a = some s') :
    s'.activeThreads = (s'.outstanding : Int)
    ∧ s'.dequeued.map Prod.snd ++ s'.taskQueue = List.range s'.submitted := by
  unfold Sender.Pool.outstanding at hc ⊢
  cases a with
  | submit =>
    simp only [Sender.Pool.step] at hstep
    split at hstep
    · cases hstep
    · cases hstep
      constructor
      · simp only [Sender.submitTask, List.length_append, List.length_singleton]
        push_cast
        omega
      · show s.dequeued.map Prod.snd ++ (s.taskQueue ++ [s.submitted])
          = List.range (s.submitted + 1)
        rw [List.range_succ, ← List.append_assoc, hf]
  | lock i =>
    simp only [Sender.Pool.step, Sender.workerLocked] at hstep
    split at hstep
    · rename_i hcond
      split at hstep
      · cases hstep
        have := countP_set_of_getElem? Sender.WorkerState.busy s.workers i _
          Sender.WorkerState.exited hcond.1
        simp [Sender.WorkerState.busy] at this
        refine ⟨?_, hf⟩
        show s.activeThreads = ((s.taskQueue.length
          + (s.workers.set i Sender.WorkerState.exited).countP Sender.WorkerState.busy : Nat) : Int)
        push_cast at hc ⊢
        omega
      · split at hstep
        · rename_i task rest hq
          cases hstep
          have := countP_set_of_getElem? Sender.WorkerState.busy s.workers i _
            (Sender.WorkerState.holding task) hcond.1
          simp [Sender.WorkerState.busy] at this
          rw [hq] at hc hf
          constructor
          · show s.activeThreads = ((rest.length
              + (s.workers.set i (Sender.WorkerState.holding task)).countP
                  Sender.WorkerState.busy : Nat) : Int)
            simp only [List.length_cons] at hc
            push_cast at hc ⊢
            omega
          · show (s.dequeued ++ [(i, task)]).map Prod.snd ++ rest = List.range s.submitted
            rw [List.map_append, List.append_assoc]
            exact hf
        · cases hstep
          exact ⟨hc, hf⟩
    · cases hstep
  | run i =>
    simp only [Sender.Pool.step, Sender.workerRun] at hstep
    split at hstep
    · rename_i task hheld
      cases hstep
      have := countP_set_of_getElem? Sender.WorkerState.busy s.workers i _
        Sender.WorkerState.ran hheld
      simp [Sender.WorkerState.busy] at this
      refine ⟨?_, hf⟩
      show s.activeThreads = ((s.taskQueue.length
        + (s.workers.set i Sender.WorkerState.ran).countP Sender.WorkerState.busy : Nat) : Int)
      push_cast at hc ⊢
      omega
    · cases hstep
  | done i =>
    simp only [Sender.Pool.step, Sender.workerDone] at hstep
    split at hstep
    · rename_i hran
      cases hstep
      have := countP_set_of_getElem? Sender.WorkerState.busy s.workers i _
        Sender.WorkerState.idle hran
      simp [Sender.WorkerState.busy] at this
      refine ⟨?_, hf⟩
      show s.activeThreads - 1 = ((s.taskQueue.length
        + (s.workers.set i Sender.WorkerState.idle).countP Sender.WorkerState.busy : Nat) : Int)
      push_cast at hc ⊢
      omega
    · cases hstep
  | shutdown =>
    simp only [Sender.Pool.step] at hstep
    cases hstep
    exact ⟨hc, hf⟩

theorem poolCount_steps (acts : List Sender.Action) (s s' : Sender.Pool)
    (hc : s.activeThreads = (s.outstanding : Int))
    (hf : s.dequeued.map Prod.snd ++ s.taskQueue = List.range s.submitted)
    (hrun : s.steps acts = some s') :
    s'.activeThreads = (s'.outstanding : Int)
    ∧ s'.dequeued.map Prod.snd ++ s'.taskQueue = List.range s'.submitted := by
  induction acts generalizing s with
  | nil =>
    simp only [Sender.Pool.steps] at hrun
    cases hrun
    exact ⟨hc, hf⟩
  | cons a rest ih =>
    simp only [Sender.Pool.steps] at hrun
    split at hrun
    · rename_i s1 hs1
      obtain ⟨hc1, hf1⟩ := poolCount_step s s1 a hc hf hs1
      exact ih s1 hc1 hf1 hrun
    · cases hrun

theorem worker_exit_step (s s' : Sender.Pool) (a : Sender.Action) (i : Nat)
    (hstep : s.step a = some s')
    (hbefore : s.workers[i]? ≠ some Sender.WorkerState.exited)
    (hafter : s'.workers[i]? = some Sender.WorkerState.exited) :
    a = Sender.Action.lock i ∧ s.shouldShutdown = true ∧ s.taskQueue = []
      ∧ s'.taskQueue = [] := by
  cases a with
  | submit =>
    simp only [Sender.Pool.step] at hstep
    split at hstep
    · cases hstep
    · cases hstep
      exact absurd hafter hbefore
  | lock j =>
    simp only [Sender.Pool.step, Sender.workerLocked] at hstep
    split at hstep
    · split at hstep
      · rename_i hx
        cases hstep
        rcases getElem?_set_cases _ _ _ _ _ hafter with ⟨e, _⟩ | ⟨_, hold⟩
        · exact ⟨by rw [e], hx.1, hx.2, hx.2⟩
        · exact absurd hold hbefore
      · split at hstep
        · cases hstep
          rcases getElem?_set_cases _ _ _ _ _ hafter with ⟨_, hx⟩ | ⟨_, hold⟩
          · cases hx
          · exact absurd hold hbefore
        · cases hstep
          exact absurd hafter hbefore
    · cases hstep
  | run j =>
    simp only [Sender.Pool.step, Sender.workerRun] at hstep
    split at hstep
    · cases hstep
      rcases getElem?_set_cases _ _ _ _ _ hafter with ⟨_, hx⟩ | ⟨_, hold⟩
      · cases hx
      · exact absurd hold hbefore
    · cases hstep
  | done j =>
    simp only [Sender.Pool.step, Sender.workerDone] at hstep
    split at hstep
    · cases hstep
      rcases getElem?_set_cases _ _ _ _ _ hafter with ⟨_, hx⟩ | ⟨_, hold⟩
      · cases hx
      · exact absurd hold hbefore
    · cases hstep
  | shutdown =>
    simp only [Sender.Pool.step] at hstep
    cases hstep
    exact absurd hafter hbefore

/-- C13: in every state reachable from the initial pool (empty queue, counter
0) by steps of `submitTask`, the workers and the shutdown request,
`activeThreads` is the number of queued tasks plus the number of tasks
dequeued and not yet finished; the tasks dequeued so far, in the order of
their dequeue, followed by the queue are the tasks in submission order; and a
step makes a worker leave its loop only if it is that worker's guarded region
taken with the shutdown flag set and the queue empty. -/
theorem pool_counter_invariant (acts : List Sender.Action) (s : Sender.Pool)
    (hrun : Sender.Pool.init.steps acts = some s) :
    s.activeThreads
      = ((s.taskQueue.length + s.workers.countP Sender.WorkerState.busy : Nat) : Int)
    ∧ s.dequeued.map Prod.snd ++ s.taskQueue = List.range s.submitted
    ∧ ∀ (a : Sender.Action) (s' : Sender.Pool) (i : Nat), s.step a = some s' →
        s.workers[i]? ≠ some Sender.WorkerState.exited →
        s'.workers[i]? = some Sender.WorkerState.exited →
        a = Sender.Action.lock i ∧ s.shouldShutdown = true ∧ s.taskQueue = [] := by
  obtain ⟨hc, hf⟩ := poolCount_steps acts _ s poolCount_init.1 poolCount_init.2 hrun
  refine ⟨hc, hf, ?_⟩
  intro a s' i hstep hb ha
  obtain ⟨h1, h2, h3, _⟩ := worker_exit_step s s' a i hstep hb ha
  exact ⟨h1, h2, h3⟩

/-- C13 after two submissions, a dequeue by worker 0, a third submission, the
run of task 0 and a dequeue by worker 2: the counter is 3, for one queued
task and two tasks in the hands of workers. -/
theorem pool_counter_invariant_witness :
    (3 : Int) = ((([2] : List Nat).length
        + [Sender.WorkerState.ran, Sender.WorkerState.idle, Sender.WorkerState.holding 1,
            Sender.WorkerState.idle].countP Sender.WorkerState.busy : Nat) : Int)
    ∧ [((0 : Nat), (0 : Nat)), (2, 1)].map Prod.snd ++ [2] = List.range 3 :=
  ⟨(pool_counter_invariant
      [Sender.Action.submit, Sender.Action.submit, Sender.Action.lock 0, Sender.Action.submit,
        Sender.Action.run 0, Sender.Action.lock 2]
      { taskQueue := [2], activeThreads := 3, shouldShutdown := false,
        workers := [Sender.WorkerState.ran, Sender.WorkerState.idle,
          Sender.WorkerState.holding 1, Sender.WorkerState.idle],
        submitted := 3, dequeued := [(0, 0), (2, 1)], executed := [(0, 0)] }
      (by decide)).1,
   (pool_counter_invariant
      [Sender.Action.submit, Sender.Action.submit, Sender.Action.lock 0, Sender.Action.submit,
        Sender.Action.run 0, Sender.Action.lock 2]
      { taskQueue := [2], activeThreads := 3, shouldShutdown := false,
        workers := [Sender.WorkerState.ran, Sender.WorkerState.idle,
          Sender.WorkerState.holding 1, Sender.WorkerState.idle],
        submitted := 3, dequeued := [(0, 0), (2, 1)], executed := [(0, 0)] }
      (by decide)).2.1⟩
